import Mathlib

/-!
# Verification of `cargo_update_version` (task orchestration + semver bump algebra)

Shallow embedding of the core of the `cargo_update_version` repository:

* the semantic-version bump algebra (`src/version.rs`),
* the custom identifier grammar and ordering (`src/version/identifiers.rs`),
* the package/workspace model (`src/packages/packages.rs`, `src/packages/package.rs`,
  `src/manifest/*`),
* workspace selection (`src/cli/workspace.rs`),
* the task execution engine (`src/tasks/*`).

Modelling conventions:

* Rust `String`/`&str` values are modelled as `List Char` (`RStr`); all strings
  handled by this program are ASCII, so byte indices and char indices coincide.
* Rust `u64` is modelled as `Nat`; where the code performs a fallible `u64`
  parse the `2^64` bound is modelled explicitly (`parseU64`).
* External collaborators (git, cargo, the filesystem, spawned processes) are
  modelled as an explicit environment (`Ext`) of `Except`-returning operations,
  matching the collaborator contracts of the specification; a spawned process
  is a script `ChildProc` stating how many non-blocking polls report
  "still running" before a final exit status or polling I/O error.
* The busy-poll join loop of `Tasks::join_all` may not terminate (a hung
  process hangs the loop); it is embedded step-indexed: the fuel counts outer
  polling passes and exhaustion is reported as a distinguished `spinning`
  outcome (the loop is still running).
-/

/-- Rust strings, modelled as lists of characters (all data here is ASCII). -/
abbrev RStr := List Char

/-- Comparison of two chars by code point, as Rust's `Ord` on `char`/bytes. -/
def charCmp (a b : Char) : Ordering := compare a.toNat b.toNat

/-- Lexicographic comparison of char lists; for ASCII data this is exactly
Rust's byte-wise `Ord` on `str` and `Iterator::cmp` on `Chars`. -/
def lexCmp : RStr → RStr → Ordering
  | [], [] => .eq
  | [], _ :: _ => .lt
  | _ :: _, [] => .gt
  | a :: as, b :: bs =>
    match charCmp a b with
    | .eq => lexCmp as bs
    | o => o

/-- Rust `str::split_once(c)` on a char list: split at the first occurrence of `c`. -/
def splitOnce (c : Char) : RStr → Option (RStr × RStr)
  | [] => none
  | x :: xs =>
    if x = c then some ([], xs)
    else match splitOnce c xs with
      | some (l, r) => some (x :: l, r)
      | none => none

/-- Rust `str::split(c)`: always yields at least one (possibly empty) field;
splitting the empty string yields one empty field, as in Rust. -/
def splitAll (c : Char) : RStr → List RStr
  | [] => [[]]
  | x :: xs =>
    if x = c then [] :: splitAll c xs
    else match splitAll c xs with
      | f :: rest => (x :: f) :: rest
      | [] => [[x]]

/-- Value of a decimal digit character. -/
def digitVal (c : Char) : Nat := c.toNat - '0'.toNat

/-- Decimal value of a digit string (most significant digit first). -/
def digitsVal (s : RStr) : Nat := s.foldl (fun acc c => 10 * acc + digitVal c) 0

/-- Decimal digit character of `n % 10`. -/
def digitChar (n : Nat) : Char :=
  match n % 10 with
  | 0 => '0' | 1 => '1' | 2 => '2' | 3 => '3' | 4 => '4'
  | 5 => '5' | 6 => '6' | 7 => '7' | 8 => '8' | _ => '9'

/-- Decimal digits of `n`, structurally recursive on a fuel bound so that the
kernel can evaluate it. -/
def natToStringAux : Nat → Nat → RStr
  | 0, _ => []
  | fuel + 1, n =>
    if n < 10 then [digitChar n]
    else natToStringAux fuel (n / 10) ++ [digitChar n]

/-- Decimal representation of a `Nat`, as the Rust `{num}` formatting of a
`u64` produces it (no sign, no leading zeros, `0 ↦ "0"`). -/
def natToString (n : Nat) : RStr := natToStringAux (n + 1) n

/-- The value `u64::MAX + 1`. -/
def u64Size : Nat := 18446744073709551616

/-- Rust `u64::from_str`: optional leading `'+'`, then one or more ASCII
digits, value at most `u64::MAX` (overflow is a parse error). -/
def parseU64 (s : RStr) : Option Nat :=
  let t := if s.head? = some '+' then s.tail else s
  if t ≠ [] ∧ t.all Char.isDigit ∧ digitsVal t < u64Size then some (digitsVal t)
  else none

namespace Cuv

/-- The CLI bump/action kind (`src/cli/action.rs`, enum `Action`). -/
inductive Action
  | pre
  | patch
  | minor
  | major
  | set
  | print
  | tree
deriving DecidableEq, Repr

/-- One prerelease identifier as the `semver` crate classifies it: an all-digit
identifier (no leading zeros, stored here by its value) or an identifier
containing a non-digit (stored verbatim). -/
inductive SvId
  | num (n : Nat)
  | alnum (s : RStr)
deriving DecidableEq, Repr

/-- The string form of one identifier. -/
def SvId.toRStr : SvId → RStr
  | .num n => natToString n
  | .alnum s => s

/-- Model of `Prerelease::to_string`: identifiers joined by `'.'`. -/
def preToString (pre : List SvId) : RStr :=
  match pre with
  | [] => []
  | [i] => i.toRStr
  | i :: rest => i.toRStr ++ '.' :: preToString rest

/-- A semver identifier character: ASCII alphanumerics and hyphen. -/
def svChar (c : Char) : Bool := c.isAlpha || c.isDigit || c = '-'

/-- Well-formedness of an identifier value: `num` is by construction a valid
numeric identifier; `alnum` must be non-empty, use only semver characters and
contain at least one non-digit (otherwise the crate would classify it Numeric). -/
def WfSvId : SvId → Prop
  | .num _ => True
  | .alnum s => s ≠ [] ∧ (∀ c ∈ s, svChar c) ∧ ¬(∀ c ∈ s, c.isDigit)

/-- Parse one dot-separated prerelease field as `Prerelease::new` does:
non-empty, only `[0-9A-Za-z-]`, all-digit fields are Numeric and must not have
leading zeros. -/
def parseSvField (s : RStr) : Option SvId :=
  if s = [] then none
  else if ¬(s.all svChar) then none
  else if s.all Char.isDigit then
    if s.length > 1 ∧ s.head? = some '0' then none
    else some (.num (digitsVal s))
  else some (.alnum s)

/-- Model of `Prerelease::new` (the semver crate's prerelease parser): split on
`'.'`, every field must parse. -/
def parsePrerelease (s : RStr) : Option (List SvId) :=
  if s = [] then some []
  else (splitAll '.' s).mapM parseSvField

/-- Compare two identifiers as the semver crate does: numeric below
alphanumeric, numerics by value, alphanumerics byte-lexically. -/
def svidCmp : SvId → SvId → Ordering
  | .num a, .num b => compare a b
  | .num _, .alnum _ => .lt
  | .alnum _, .num _ => .gt
  | .alnum a, .alnum b => lexCmp a b

/-- Field-by-field comparison of two non-empty prereleases; a longer sequence
outranks a shorter one with equal prefix. -/
def preListCmp : List SvId → List SvId → Ordering
  | [], [] => .eq
  | [], _ :: _ => .lt
  | _ :: _, [] => .gt
  | a :: as, b :: bs =>
    match svidCmp a b with
    | .eq => preListCmp as bs
    | o => o

/-- Model of `Ord for Prerelease`: the empty prerelease (a real release) is
greater than any non-empty prerelease. -/
def preCmp (a b : List SvId) : Ordering :=
  match a, b with
  | [], [] => .eq
  | [], _ :: _ => .gt
  | _ :: _, [] => .lt
  | _, _ => preListCmp a b

/-- Compare one dot-separated build-metadata field as the semver crate does
(all-digit fields numerically with leading zeros as tiebreak: 0 < 00 < 1 < 01). -/
def buildFieldCmp (a b : RStr) : Ordering :=
  match a.all Char.isDigit, b.all Char.isDigit with
  | true, true =>
    let ta := a.dropWhile (· = '0')
    let tb := b.dropWhile (· = '0')
    match compare ta.length tb.length with
    | .eq =>
      match lexCmp ta tb with
      | .eq => compare a.length b.length
      | o => o
    | o => o
  | true, false => .lt
  | false, true => .gt
  | false, false => lexCmp a b

/-- Element-wise comparison of build-metadata fields, shorter < longer. -/
def buildListCmp : List RStr → List RStr → Ordering
  | [], [] => .eq
  | [], _ :: _ => .lt
  | _ :: _, [] => .gt
  | a :: as, b :: bs =>
    match buildFieldCmp a b with
    | .eq => buildListCmp as bs
    | o => o

/-- Model of `Ord for BuildMetadata`: split on `'.'` (the empty string yields
one empty field) and compare field-wise. -/
def buildCmp (a b : RStr) : Ordering :=
  buildListCmp (splitAll '.' a) (splitAll '.' b)

/-- Model of `semver::Version` (major, minor, patch are `u64`; prerelease a
sequence of identifiers; build metadata an opaque string). -/
structure Version where
  major : Nat
  minor : Nat
  patch : Nat
  pre : List SvId
  build : RStr
deriving DecidableEq, Repr

/-- Model of `Ord for semver::Version`: major, minor, patch, prerelease, and —
as the crate's documented extension to SemVer — build metadata as a final
tiebreak. -/
def versionCmp (a b : Version) : Ordering :=
  match compare a.major b.major with
  | .eq =>
    match compare a.minor b.minor with
    | .eq =>
      match compare a.patch b.patch with
      | .eq =>
        match preCmp a.pre b.pre with
        | .eq => buildCmp a.build b.build
        | o => o
      | o => o
    | o => o
  | o => o

/-- SemVer *precedence* as the specification defines ordering: major, minor,
patch, prerelease — build metadata does not participate. -/
def precedenceCmp (a b : Version) : Ordering :=
  match compare a.major b.major with
  | .eq =>
    match compare a.minor b.minor with
    | .eq =>
      match compare a.patch b.patch with
      | .eq => preCmp a.pre b.pre
      | o => o
    | o => o
  | o => o

/-- Model of `Version::to_string`: `major.minor.patch[-pre][+build]`. -/
def versionToString (v : Version) : RStr :=
  natToString v.major ++ '.' :: natToString v.minor ++ '.' :: natToString v.patch
    ++ (if v.pre = [] then [] else '-' :: preToString v.pre)
    ++ (if v.build = [] then [] else '+' :: v.build)

/-- The error outcomes of the bump operations in `src/version.rs`, one
constructor per `bail!` / `ensure!` / `Err(..)` site. -/
inductive VErr
  /-- The `bail!("Invalid Action: {}", action)` case in `Bumpable::bump`. -/
  | invalidAction (a : Action)
  /-- Failure of `ensure!(self > old, "New version is not large than old version")`. -/
  | notLargerThanOld
  /-- Failure of the `ensure!` in `try_bump_patch`. -/
  | patchBumpError
  /-- The `VersionError::prerelease_not_empty(old, bump)` error (`src/error.rs`):
  carries the old version and the named bump kind. -/
  | prereleaseNotEmpty (old : Version) (bump : Action)
  /-- Failure of `ensure!(old < version, "Failed to bump: Minor")`. -/
  | failedBumpMinor
  /-- Failure of `ensure!(old < version, "Failed to bump: Major")`. -/
  | failedBumpMajor
  /-- The `bail!("Prerelease not set.")` case in `try_bump_pre`. -/
  | prereleaseNotSet
  /-- The labeled-span miette error for a non-numeric incrementable segment
  in `try_bump_pre` (span start and length as computed there). -/
  | invalidIncrementable (spanStart spanLen : Nat)
  /-- Failure of `Prerelease::new(..).into_diagnostic()?` in `try_bump_pre`. -/
  | semverError
  /-- The `bail!("Prerelease not split by '.': {}", pre)` case in `try_bump_pre`. -/
  | notSplitByDot
  /-- Failure of `ensure!(self > old, "PreRelease bump failed.")`. -/
  | preBumpFailed
deriving DecidableEq, Repr

/-- Rust `str::find(char)`: index of the first occurrence. -/
def findChar (c : Char) (s : RStr) : Option Nat :=
  go s 0
where
  go : RStr → Nat → Option Nat
    | [], _ => none
    | x :: xs, i => if x = c then some i else go xs (i + 1)

/-- Model of `try_bump_patch` (`src/version.rs:65-81`): empty prerelease
increments patch, a non-empty prerelease is cleared (graduation); the
old-vs-new check is kept as in the source. -/
def tryBumpPatch (v : Version) : Except VErr Version :=
  let v' := if v.pre = [] then { v with patch := v.patch + 1 }
            else { v with pre := [] }
  if versionCmp v v' = .lt then .ok v' else .error .patchBumpError

/-- Model of `try_bump_minor` (`src/version.rs:83-97`). -/
def tryBumpMinor (force : Bool) (v : Version) : Except VErr Version :=
  if v.pre ≠ [] ∧ ¬force then .error (.prereleaseNotEmpty v .minor)
  else
    let v' := { v with pre := [], minor := v.minor + 1, patch := 0 }
    if versionCmp v v' = .lt then .ok v' else .error .failedBumpMinor

/-- Model of `try_bump_major` (`src/version.rs:99-114`). NOTE: the source
passes `Action::Minor` to `VersionError::prerelease_not_empty` in this branch
(`src/version.rs:103-106`), so the error produced by a major bump names the
Minor kind; this is modelled verbatim. -/
def tryBumpMajor (force : Bool) (v : Version) : Except VErr Version :=
  if v.pre ≠ [] ∧ ¬force then .error (.prereleaseNotEmpty v .minor)
  else
    let v' := { v with pre := [], major := v.major + 1, minor := 0, patch := 0 }
    if versionCmp v v' = .lt then .ok v' else .error .failedBumpMajor

/-- Model of `try_bump_pre` (`src/version.rs:119-173`): requires a non-empty
prerelease, splits its string form at the **first** dot (`split_once('.')`),
parses everything after that dot as a `u64`, increments it, and re-parses
`"{id}.{num}"` as the new prerelease. A failed integer parse produces the
labeled-span error computed from the character positions in the source; a
prerelease without a dot is a hard error. The `u64` increment wraps at
`2^64` (release-profile arithmetic). -/
def tryBumpPre (_force : Bool) (v : Version) : Except VErr Version :=
  if v.pre = [] then .error .prereleaseNotSet
  else
    let sourceCode := preToString v.pre
    match splitOnce '.' sourceCode with
    | some (id, rest) =>
      match parseU64 rest with
      | some n =>
        let num := (n + 1) % u64Size
        match parsePrerelease (id ++ '.' :: natToString num) with
        | some p =>
          let v' := { v with pre := p }
          if versionCmp v' v = .gt then .ok v' else .error .preBumpFailed
        | none => .error .semverError
      | none =>
        -- the labeled-span arithmetic of `src/version.rs:135-151`
        let splitIdx := (findChar '.' sourceCode).getD 0
        let spanLen :=
          if sourceCode.length ≥ 1 + splitIdx then sourceCode.length - 1 - splitIdx
          else 0
        let spanStart := splitIdx + ((findChar '-' (versionToString v)).getD 0 + 2 + 11)
        .error (.invalidIncrementable spanStart spanLen)
    | none => .error .notSplitByDot

/-- The action dispatch of `Bumpable::bump` (`src/version.rs:37-43`). -/
def bumpStep (action : Action) (forceVersion : Bool) (v : Version) : Except VErr Version :=
  match action with
  | .patch => tryBumpPatch v
  | .minor => tryBumpMinor forceVersion v
  | .major => tryBumpMajor forceVersion v
  | .pre => tryBumpPre forceVersion v
  | a => .error (.invalidAction a)

/-- The override application of `Bumpable::bump` (`src/version.rs:44-52`):
the prerelease override is applied except for a Pre bump, then the build
override. -/
def applyOverrides (action : Action) (preRelease : Option (List SvId))
    (build : Option RStr) (v1 : Version) : Version :=
  let v2 := if action ≠ .pre then
      match preRelease with
      | some p => { v1 with pre := p }
      | none => v1
    else v1
  match build with
  | some b => { v2 with build := b }
  | none => v2

/-- Model of `Bumpable::bump for Version` (`src/version.rs:24-63`): dispatch on
the action, apply prerelease/build overrides (a Pre bump ignores the prerelease
override), then unless `force` require the result to be strictly greater
than the input under the crate's `Version` ordering. -/
def bump (action : Action) (preRelease : Option (List SvId)) (build : Option RStr)
    (forceVersion : Bool) (v : Version) : Except VErr Version :=
  match bumpStep action forceVersion v with
  | .error e => .error e
  | .ok v1 =>
    let v3 := applyOverrides action preRelease build v1
    if ¬forceVersion then
      if versionCmp v3 v = .gt then .ok v3 else .error .notLargerThanOld
    else .ok v3

end Cuv

namespace Cuv

/-- The valid non-digit characters of `src/version/identifiers.rs`
(`VALID_CHARS`). -/
def validChars : RStr := "ABCDEFGHIJKLMNOPQRSTUVWXYZabcdefghijklmnopqrstuvwxyz-".toList

/-- The digit characters of `src/version/identifiers.rs` (`VALID_DIGITS`). -/
def validDigits : RStr := "0123456789".toList

/-- The `IdentifierKind` enum of `src/version/identifiers.rs`. -/
inductive IdentifierKind
  | alphanumeric
  | numeric
deriving DecidableEq, Repr

/-- The `Identifier` struct of `src/version/identifiers.rs`: a classification
tag plus the identifier string kept verbatim. -/
structure Identifier where
  kind : IdentifierKind
  ident : RStr
deriving DecidableEq, Repr

/-- The `IdentifierError` enum of `src/version/identifiers.rs`. -/
inductive IdentifierError
  | emptyIdent
  /-- Invalid character at its 0-indexed position. -/
  | invalidChar (c : Char) (idx : Nat)
  | expectedNumeric
  | parseIntError
deriving DecidableEq, Repr

/-- Model of `Identifier::validate_input` (`src/version/identifiers.rs:118-125`):
scan the characters with their indices and fail on the first character that is
in neither `VALID_CHARS` nor `VALID_DIGITS`. -/
def validateInput (input : RStr) : Except IdentifierError Unit :=
  go input 0
where
  go : RStr → Nat → Except IdentifierError Unit
    | [], _ => .ok ()
    | c :: rest, idx =>
      if ¬(validChars.contains c || validDigits.contains c) then
        .error (.invalidChar c idx)
      else go rest (idx + 1)

/-- Model of `FromStr for Identifier` (`src/version/identifiers.rs:89-112`):
empty input fails, characters are validated, an all-digit string must parse as
`u64` and is Numeric, anything else is Alphanumeric. -/
def identFromStr (s : RStr) : Except IdentifierError Identifier :=
  if s = [] then .error .emptyIdent
  else
    match validateInput s with
    | .error e => .error e
    | .ok () =>
      if s.all Char.isDigit then
        match parseU64 s with
        | some _ => .ok ⟨.numeric, s⟩
        | none => .error .parseIntError
      else .ok ⟨.alphanumeric, s⟩

/-- Model of `Identifier::as_numeric`: the `u64` value of a Numeric
identifier's string; the source `expect`s the parse ("ensured when set"),
modelled as `Option`. -/
def asNumeric (i : Identifier) : Option Nat :=
  if i.kind = .numeric then parseU64 i.ident else none

/-- Model of `Ord for Identifier` (`src/version/identifiers.rs:321-355`):
alphanumeric pairs compare lexically in ASCII order, numeric pairs compare by
their parsed `u64` values (`none` models the source's `unwrap` panic on an
unparseable numeric identifier), and numeric identifiers sort strictly below
alphanumeric ones. -/
def identCmp (a b : Identifier) : Option Ordering :=
  match a.kind, b.kind with
  | .alphanumeric, .alphanumeric => some (lexCmp a.ident b.ident)
  | .alphanumeric, .numeric => some .gt
  | .numeric, .alphanumeric => some .lt
  | .numeric, .numeric =>
    match asNumeric a, asNumeric b with
    | some m, some n => some (compare m n)
    | _, _ => none

end Cuv

namespace Cuv

/-- The `VersionType` discriminator (`src/manifest/version_location.rs` /
`Package::set_version_type`): the package declares its own version, inherits
it from the workspace, or is the workspace-level declaration itself. -/
inductive VersionType
  | package
  | setByWorkspace
  | workspacePackage
deriving DecidableEq, Repr

/-- The error kinds of `VersionLocation` operations
(`src/manifest/version_location.rs`, `VersionLocationErrorKind`), restricted
to the kinds the modelled document shapes can produce. -/
inductive VerLocKind
  | setByWorkspace
  | notFound
  | packageNotFound
  | workspaceNotFound
  | itemInvalid
  | semverError
deriving DecidableEq, Repr

/-- The combined manifest-file error kinds (`src/manifest/toml_file.rs`,
`CargoFileErrorKind`). -/
inductive CargoErr
  | noPackageOrWorkspaceVersion
  | locationError (kind : VerLocKind)
deriving DecidableEq, Repr

/-- The in-memory parsed manifest document (the `DocumentMut` held by
`CargoFile<ReadToml>`), abstracted to the two version locations the program
reads and writes: `package.version` (`some none` models
`version.workspace = true`, a dotted table) and `workspace.package.version`. -/
structure CargoFile where
  packageVersion : Option (Option Version)
  workspaceVersion : Option Version
deriving DecidableEq, Repr

/-- The `VersionLocation` enum. -/
inductive VersionLocation
  | package
  | workspacePackage
deriving DecidableEq, Repr

/-- Model of `VersionLocation::get_version`
(`src/manifest/version_location.rs:31-120`) on the abstracted document. -/
def locGetVersion : VersionLocation → CargoFile → Except VerLocKind Version
  | .package, f =>
    match f.packageVersion with
    | none => .error .packageNotFound
    | some none => .error .setByWorkspace
    | some (some v) => .ok v
  | .workspacePackage, f =>
    match f.workspaceVersion with
    | none => .error .workspaceNotFound
    | some v => .ok v

/-- Model of `VersionLocation::set_version`
(`src/manifest/version_location.rs:124-208`): writing through
`version.workspace = true` finds a table where a value is expected
(`ItemInvalid`), not a `SetByWorkspace` error. -/
def locSetVersion : VersionLocation → CargoFile → Version → CargoFile × Option VerLocKind
  | .package, f, v =>
    match f.packageVersion with
    | none => (f, some .packageNotFound)
    | some none => (f, some .itemInvalid)
    | some (some _) => ({ f with packageVersion := some (some v) }, none)
  | .workspacePackage, f, v =>
    match f.workspaceVersion with
    | none => (f, some .workspaceNotFound)
    | some _ => ({ f with workspaceVersion := some v }, none)

/-- Model of `CargoFile::set_version` (`src/manifest/toml_file.rs:116-159`):
both locations are attempted (both writes land if both exist), then the
package-location error decides: hard item/semver errors propagate, otherwise
a workspace-location failure downgrades to `NoPackageOrWorkspaceVersion`. -/
def cargoFileSetVersion (f : CargoFile) (v : Version) : CargoFile × Option CargoErr :=
  let (f1, packErr) := locSetVersion .package f v
  let (f2, wsErr) := locSetVersion .workspacePackage f1 v
  match packErr with
  | none => (f2, none)
  | some k =>
    match k with
    | .itemInvalid => (f2, some (.locationError .itemInvalid))
    | .semverError => (f2, some (.locationError .semverError))
    | _ =>
      match wsErr with
      | none => (f2, none)
      | some wk =>
        match wk with
        | .itemInvalid => (f2, some (.locationError .itemInvalid))
        | .semverError => (f2, some (.locationError .semverError))
        | _ => (f2, some .noPackageOrWorkspaceVersion)

/-- The `Package<ReadToml>` struct (`src/packages/package.rs`): name, version
type, current version, manifest path, and the in-memory manifest document. -/
structure Package where
  name : RStr
  version_type : VersionType
  version : Version
  manifest_path : RStr
  cargo_file : CargoFile
deriving DecidableEq, Repr

/-- Model of `Package::set_version` (`src/packages/package.rs:104-110`): the
in-memory version field is assigned first, then the manifest document is
updated; a document failure is reported after the field mutation has landed. -/
def Package.setVersion (p : Package) (v : Version) : Package × Option CargoErr :=
  let p1 := { p with version := v }
  let (f', err) := cargoFileSetVersion p1.cargo_file v
  ({ p1 with cargo_file := f' }, err)

/-- The `Packages` workspace model (`src/packages/packages.rs`): root paths,
optional root package name, optional cached root version, default members,
the by-name package map (an insertion-ordered association list with unique
names stands in for the `HashMap`), and the optional workspace-level package. -/
structure Packages where
  root_directory : RStr
  root_cargo_toml : RStr
  root_cargo_lock : RStr
  root_package : Option RStr
  root_version : Option Version
  default_members : List RStr
  packages : List (RStr × Package)
  workspace_package : Option Package
deriving DecidableEq, Repr

/-- Association-list lookup (`HashMap::get`). -/
def alGet (l : List (RStr × Package)) (k : RStr) : Option Package :=
  (l.find? (fun e => e.1 = k)).map Prod.snd

/-- Association-list value update at the first matching key. -/
def alSet (l : List (RStr × Package)) (k : RStr) (p : Package) : List (RStr × Package) :=
  match l with
  | [] => []
  | e :: rest => if e.1 = k then (k, p) :: rest else e :: alSet rest k p

/-- The name of the synthetic workspace package
(`PackageName::workspace_package()`). -/
def workspacePackageName : RStr := "workspace.package".toList

/-- Model of `Packages::get_package_mut` as a lookup: redirects the synthetic
workspace name to the workspace package. -/
def Packages.getPackageMut (ps : Packages) (name : RStr) : Option Package :=
  if name = workspacePackageName then ps.workspace_package
  else alGet ps.packages name

/-- Apply an update where `get_package_mut` points. -/
def Packages.putPackage (ps : Packages) (name : RStr) (p : Package) : Packages :=
  if name = workspacePackageName then { ps with workspace_package := some p }
  else { ps with packages := alSet ps.packages name p }

/-- The `PackageError` outcomes used here (`src/packages/error.rs`). -/
inductive PackageError
  | noRootVersion
deriving DecidableEq, Repr

/-- De-duplicating insert of an `IndexSet`. -/
def dedupInsert {α : Type} [DecidableEq α] (l : List α) (x : α) : List α :=
  if x ∈ l then l else l ++ [x]

/-- Model of `Packages::root_version` (`src/packages/packages.rs:216-258`):
cached root version, else the root package's version, else the
workspace-declared version, else the single version shared by every member;
ambiguity is a `NoRootVersion` error. -/
def Packages.rootVersion (ps : Packages) : Except PackageError Version :=
  match ps.root_version with
  | some v => .ok v
  | none =>
    match ps.root_package.bind (alGet ps.packages) with
    | some p => .ok p.version
    | none =>
      match ps.workspace_package.bind
          (fun wp => (locGetVersion .workspacePackage wp.cargo_file).toOption) with
      | some v => .ok v
      | none =>
        let versions := ps.packages.foldl (fun acc e => dedupInsert acc e.2.version) []
        match versions with
        | [v] => .ok v
        | _ => .error .noRootVersion

/-- Model of `Packages::set_package_version`
(`src/packages/packages.rs:390-401`): resolve the package (an unknown name is
an error) and set its version in the in-memory model. The partially mutated
package is stored even when the manifest-document update reports an error,
matching the in-place `&mut` mutation of the source. -/
def Packages.setPackageVersion (ps : Packages) (name : RStr) (v : Version) :
    Packages × Option String :=
  match ps.getPackageMut name with
  | none => (ps, some "No package by name")
  | some p =>
    let (p', err) := p.setVersion v
    (ps.putPackage name p', err.map (fun _ => "failed to set version in manifest"))

/-- Model of `Packages::set_workspace_package_version`
(`src/packages/packages.rs:408-416`). -/
def Packages.setWorkspacePackageVersion (ps : Packages) (v : Version) :
    Packages × Option String :=
  match ps.workspace_package with
  | none => (ps, some "Expected workspace.package.version to exist.")
  | some wp =>
    let (wp', err) := wp.setVersion v
    ({ ps with workspace_package := some wp' },
      err.map (fun _ => "failed to set workspace version"))

/-- A persistent-storage write event: package name and the version its
manifest document holds at write time. -/
structure WriteEvent where
  package : RStr
  version : Version
deriving DecidableEq, Repr

/-- Model of `Package::write_cargo_file` (`src/packages/package.rs:133-151`):
refuses for workspace-inherited packages, otherwise writes the in-memory
document to disk (the write event) and reads the version back from the
document's location. -/
def Package.writeCargoFile (p : Package) : Except String (Version × WriteEvent) :=
  match p.version_type with
  | .setByWorkspace => .error "Can't modify SetByWorkspace version"
  | .package =>
    match locGetVersion .package p.cargo_file with
    | .ok v => .ok (v, ⟨p.name, v⟩)
    | .error _ => .error "version location error"
  | .workspacePackage =>
    match locGetVersion .workspacePackage p.cargo_file with
    | .ok v => .ok (v, ⟨p.name, v⟩)
    | .error _ => .error "version location error"

/-- Model of `Packages::write_cargo_file` (`src/packages/packages.rs:422-430`). -/
def Packages.writeCargoFile (ps : Packages) (name : RStr) :
    Except String (Packages × WriteEvent) :=
  match ps.getPackageMut name with
  | none => .error "No package by name"
  | some p =>
    match p.writeCargoFile with
    | .ok (_, ev) => .ok (ps, ev)
    | .error e => .error e

end Cuv

namespace Cuv

/-- The workspace-selection CLI flags (`src/cli/workspace.rs`, struct
`Workspace`): include list (`--package`), exclude list (`--exclude`),
`--workspace`, `--workspace-package`, `--default-members`. -/
structure Workspace where
  package : List RStr
  exclude : List RStr
  workspace : Bool
  workspace_package : Bool
  default_members : Bool
deriving DecidableEq, Repr

/-- The `PackagesCliModifier` struct: optional include/exclude name lists
(the source fields are `include`/`exclude`; `include` is a Lean keyword). -/
structure PackagesCliModifier where
  includeList : Option (List RStr)
  excludeList : Option (List RStr)
deriving DecidableEq, Repr

/-- Model of `PackagesCliModifier::new`: empty slices normalize to `None`. -/
def PackagesCliModifier.make (inc exc : Option (List RStr)) : PackagesCliModifier :=
  ⟨inc.bind (fun l => if l = [] then none else some l),
   exc.bind (fun l => if l = [] then none else some l)⟩

/-- The `NO_MOD` constant. -/
def PackagesCliModifier.noMod : PackagesCliModifier := ⟨none, none⟩

/-- The `PackagesCli` selection modes. -/
inductive PackagesCli
  | rootPackage (m : PackagesCliModifier)
  | all (m : PackagesCliModifier)
  | defaultMembers (m : PackagesCliModifier)
deriving DecidableEq, Repr

/-- The modifier of a selection (`AsRef<PackagesCliModifier>`). -/
def PackagesCli.modifier : PackagesCli → PackagesCliModifier
  | .rootPackage m => m
  | .all m => m
  | .defaultMembers m => m

/-- Model of `PackagesCli::from_flags` (`src/cli/workspace.rs:191-208`).
The `(true, true, _, _)` combination is `unreachable!()` in the source (the
CLI declares the two flags as conflicting); it is modelled as `none`. -/
def PackagesCli.fromFlags (all default_members : Bool)
    (exclude package : List RStr) : Option PackagesCli :=
  let packMod := PackagesCliModifier.make (some package) (some exclude)
  match all, default_members, exclude.length, package.length with
  | false, false, 0, 0 => some (.rootPackage .noMod)
  | true, false, 0, _ => some (.all .noMod)
  | true, false, _, _ => some (.all packMod)
  | false, true, _, _ => some (.defaultMembers packMod)
  | false, false, _, _ => some (.rootPackage packMod)
  | true, true, _, _ => none

/-- Model of `PackagesCliModifier::exclude`. -/
def PackagesCliModifier.isExcluded (m : PackagesCliModifier) (name : RStr) : Bool :=
  match m.excludeList with
  | some exc => exc.contains name
  | none => false

/-- Model of `PackagesCliModifier::include` (`src/cli/workspace.rs:164-177`):
the three match arms in source order — a package neither in the base selection
nor explicitly included is out; otherwise it is in unless excluded. -/
def PackagesCliModifier.includes (m : PackagesCliModifier)
    (baseIds : List RStr) (name : RStr) : Bool :=
  let isInclude := match m.includeList with
    | some inc => inc.contains name
    | none => false
  let isExcluded := m.isExcluded name
  if !baseIds.contains name && !isInclude then false
  else if !isExcluded then true
  else false

/-- The workspace member set: the keys of the package map
(`Packages::workspace_members`). -/
def Packages.workspaceMembers (ps : Packages) : List RStr :=
  ps.packages.map Prod.fst

/-- The default-member set (`Packages::workspace_default_members`). -/
def Packages.workspaceDefaultMembers (ps : Packages) : List RStr :=
  (ps.packages.map Prod.fst).filter (fun n => ps.default_members.contains n)

/-- The package value set (`Packages::package_set`). -/
def Packages.packageSet (ps : Packages) : List Package :=
  ps.packages.map Prod.snd

/-- Model of `Workspace::partition_packages` (`src/cli/workspace.rs:43-72`):
build the selection from the flags, derive the base id set for the active
mode, and partition the package set by the modifier's include test.
`none` models the `unreachable!()` panic in `from_flags` when both
`--workspace` and `--default-members` are set. -/
def Workspace.partitionPackages (ws : Workspace) (ps : Packages) :
    Option (List Package × List Package) :=
  match PackagesCli.fromFlags ws.workspace ws.default_members ws.exclude ws.package with
  | none => none
  | some selection =>
    let rootPackage := ps.root_package
    let baseIds : List RStr :=
      match selection with
      | .rootPackage _ => ps.workspaceMembers.filter (fun p => some p = rootPackage)
      | .all _ => ps.workspaceMembers
      | .defaultMembers _ => ps.workspaceDefaultMembers
    some (ps.packageSet.partition
      (fun pkg => selection.modifier.includes baseIds pkg.name))

end Cuv

namespace Cuv

/-- The `Task` enum (`src/tasks/task.rs`), without the `unstable`-feature
variants (stash/branch switching), which are compiled out. -/
inductive Task
  | displayVersion (packageName : RStr)
  | workspaceTree
  | set (packageName : RStr) (newVersion : Version)
  | setWorkspace (newVersion : Version)
  | bump (packageName : RStr) (bumpKind : Action) (newVersion : Version)
  | bumpWorkspace (bumpKind : Action) (newVersion : Version)
  | gitAdd (paths : List RStr)
  | gitCommit
  | gitPush (remote : RStr) (tag : RStr)
  | gitTag (version : Version)
  | deleteGitTag (version : Version)
  | writeCargoToml (packageName : RStr)
  | cargoPublish
  | cargoGenerateLock
deriving DecidableEq, Repr

/-- Model of `Task::is_version_change`. -/
def Task.isVersionChange : Task → Bool
  | .set _ _ | .bump _ _ _ | .bumpWorkspace _ _ | .setWorkspace _ => true
  | _ => false

/-- Model of `Task::is_delete_git_tag`. -/
def Task.isDeleteGitTag : Task → Bool
  | .deleteGitTag _ => true
  | _ => false

/-- Model of `Task::is_run_after_completed`: the cleanup class, today exactly
tag deletion. -/
def Task.isRunAfterCompleted (t : Task) : Bool := t.isDeleteGitTag

/-- Decidable equality for `Except` results (not provided by the libraries). -/
instance instDecEqExcept {e a : Type} [DecidableEq e] [DecidableEq a] :
    DecidableEq (Except e a) := fun x y => by
  cases x <;> cases y
  case error.error u v => exact decidable_of_iff (u = v) (by simp)
  case error.ok u v => exact isFalse (fun h => Except.noConfusion h)
  case ok.error u v => exact isFalse (fun h => Except.noConfusion h)
  case ok.ok u v => exact decidable_of_iff (u = v) (by simp)

/-- A spawned process, as a poll script: `pending` non-blocking `try_wait`
calls report "still running", after which `result` is the exit outcome
(`Except.error` models a polling I/O failure, `Except.ok code` an exit with
that status code) and `stderr` the captured error output. -/
structure ChildProc where
  pending : Nat
  result : Except Unit Nat
  stderr : String
deriving DecidableEq, Repr

/-- The `TaskError` struct (`src/tasks/mod.rs:33-44`). -/
structure TaskError where
  completed_tasks : List Task
  incomplete_tasks : List Task
  errored_task : Task
  output : String
  msg : String
deriving DecidableEq, Repr

/-- The `Tasks` struct (`src/tasks/tasks.rs:16-21`): an insertion-ordered map
from `Task` to an optional process handle, an insertion-ordered completed set,
and the owned workspace model. -/
structure Tasks where
  tasks : List (Task × Option ChildProc)
  completed : List Task
  packages : Packages
deriving DecidableEq, Repr

/-- Model of `Tasks::new`. -/
def Tasks.new (packages : Packages) : Tasks := ⟨[], [], packages⟩

/-- The task keys in insertion order. -/
def Tasks.taskKeys (s : Tasks) : List Task := s.tasks.map Prod.fst

/-- Model of `Tasks::incomplete_tasks`: keys not in the completed set. -/
def Tasks.incompleteTasks (s : Tasks) : List Task :=
  s.taskKeys.filter (fun t => ¬s.completed.contains t)

/-- Model of `Tasks::completed_tasks`. -/
def Tasks.completedTasks (s : Tasks) : List Task := s.completed

/-- Model of `Tasks::run_after_completed_tasks`. -/
def Tasks.runAfterCompletedTasks (s : Tasks) : List Task :=
  s.taskKeys.filter Task.isRunAfterCompleted

/-- Model of `Tasks::version_change_tasks`. -/
def Tasks.versionChangeTasks (s : Tasks) : List Task :=
  s.taskKeys.filter (fun t => ¬s.completed.contains t ∧ t.isVersionChange)

/-- Model of `Tasks::complete_task` (`IndexSet::insert`). -/
def Tasks.completeTask (s : Tasks) (t : Task) : Tasks :=
  { s with completed := dedupInsert s.completed t }

/-- Map lookup (`IndexMap::get_mut` as a read). -/
def Tasks.lookupChild (s : Tasks) (t : Task) : Option (Option ChildProc) :=
  (s.tasks.find? (fun e => e.1 = t)).map Prod.snd

/-- Overwrite the stored handle of the first entry with this key. -/
def Tasks.setChild (s : Tasks) (t : Task) (c : Option ChildProc) : Tasks :=
  { s with tasks := go s.tasks }
where
  go : List (Task × Option ChildProc) → List (Task × Option ChildProc)
    | [] => []
    | e :: rest => if e.1 = t then (t, c) :: rest else e :: go rest

/-- Model of `IndexMap::insert`: an existing key keeps its position and gets
the new value, a new key is appended. -/
def Tasks.insertTask (s : Tasks) (t : Task) (c : Option ChildProc) : Tasks :=
  if (s.tasks.find? (fun e => e.1 = t)).isSome then s.setChild t c
  else { s with tasks := s.tasks ++ [(t, c)] }

/-- Model of `TaskError::from_tasks` (`src/tasks/mod.rs:12-31`), including the
source's placeholder text (sic) for a missing captured output. -/
def TaskError.fromTasks (s : Tasks) (erroredTask : Task) (output : Option String)
    (msg : String) : TaskError :=
  { completed_tasks := s.completedTasks
    incomplete_tasks := s.incompleteTasks
    errored_task := erroredTask
    output := output.getD "Unknown Ourput"
    msg := msg }

/-- The external collaborators (spec §6): git and cargo builders, the dirty
file set, branch and remote queries, the working directory, and the
process-spawning / synchronous external actions used by `Task::run`. -/
structure Ext where
  cwd : RStr
  gitBuild : Except String Unit
  cargoBuild : Except String Unit
  dirtyFiles : Except String (List RStr)
  currentBranch : Except String RStr
  remotes : Except String (List RStr)
  push : RStr → RStr → Bool → Except String ChildProc
  publish : Bool → Bool → Bool → Except String ChildProc
  tag : Version → Option (List RStr) → Except String Unit
  addFiles : List RStr → Except String Unit
  commit : RStr → Bool → Except String Unit
  generateLockfile : Except String Unit

/-- The resolved CLI intent (`src/cli/cli.rs` accessors): action, explicit
version, prerelease/build overrides, and the behaviour flags. -/
structure Cli where
  action : Action
  set_version : Option Version
  pre : Option (List SvId)
  build : Option RStr
  force_version : Bool
  dry_run : Bool
  allow_dirty : Bool
  no_verify : Bool
  git_message : Option RStr
  git_tag : Bool
  git_push : Bool
  cargo_publish : Bool
  display_tasks : Bool
  workspace : Workspace

/-- Model of `Packages::get_package` (`src/packages/packages.rs:167-173`):
the synthetic workspace name redirects to the **root** package here. -/
def Packages.getPackage (ps : Packages) (name : RStr) : Option Package :=
  if name = workspacePackageName then ps.root_package.bind (alGet ps.packages)
  else alGet ps.packages name

/-- Model of `Packages::get_root_package`. -/
def Packages.getRootPackage (ps : Packages) : Option Package :=
  ps.root_package.bind (alGet ps.packages)

/-- Model of `Task::run` (`src/tasks/task.rs:205-277`): resolves the root
version first (any task fails if it is unresolvable), then either performs a
local mutation on the given `Packages` (returning no handle), spawns an
external process (returning its handle), or performs a synchronous external
action. The returned write-event list records persistent manifest writes. -/
def Task.run (cli : Cli) (ext : Ext) (packages : Packages) :
    Task → Except String (Option ChildProc × Packages × List WriteEvent)
  | t =>
    match packages.rootVersion with
    | .error _ => .error "no root version"
    | .ok rootVersion =>
      match t with
      | .gitPush remote tag =>
        (ext.push remote tag cli.dry_run).map (fun c => (some c, packages, []))
      | .cargoPublish =>
        (ext.publish cli.dry_run cli.no_verify cli.allow_dirty).map
          (fun c => (some c, packages, []))
      | .displayVersion name =>
        match packages.getPackage name with
        | none => .error "No package with name"
        | some _ => .ok (none, packages, [])
      | .workspaceTree => .ok (none, packages, [])
      | .set name v =>
        match packages.setPackageVersion name v with
        | (ps', none) => .ok (none, ps', [])
        | (_, some e) => .error e
      | .bump name _ v =>
        match packages.setPackageVersion name v with
        | (ps', none) => .ok (none, ps', [])
        | (_, some e) => .error e
      | .setWorkspace v =>
        match packages.setWorkspacePackageVersion v with
        | (ps', none) => .ok (none, ps', [])
        | (_, some e) => .error e
      | .bumpWorkspace _ v =>
        match packages.setWorkspacePackageVersion v with
        | (ps', none) => .ok (none, ps', [])
        | (_, some e) => .error e
      | .deleteGitTag v =>
        (ext.tag v (some ["--delete".toList])).map (fun _ => (none, packages, []))
      | .writeCargoToml name =>
        match packages.writeCargoFile name with
        | .ok (ps', ev) => .ok (none, ps', [ev])
        | .error e => .error e
      | .gitAdd files =>
        (ext.addFiles files).map (fun _ => (none, packages, []))
      | .gitCommit =>
        (ext.commit (cli.git_message.getD (versionToString rootVersion)) cli.dry_run).map
          (fun _ => (none, packages, []))
      | .gitTag v =>
        (ext.tag v none).map (fun _ => (none, packages, []))
      | .cargoGenerateLock =>
        ext.generateLockfile.map (fun _ => (none, packages, []))

/-- The error type of task generation and execution entry points: a plain
diagnostic report, a structured `TaskError`, a version-algebra error or a
package-resolution error. -/
inductive RunError
  | report (msg : String)
  | taskError (e : TaskError)
  | version (e : VErr)
  | packageErr (e : PackageError)
deriving DecidableEq, Repr

/-- The observable outcome of `run_all`/`run_cleanup_tasks`: the returned
state (or error), the tasks on which `Task::run` was invoked, in order, and
the persistent writes performed. -/
structure RunResult where
  result : Except RunError Tasks
  ran : List Task
  writes : List WriteEvent
deriving DecidableEq, Repr

/-- The loop body of `Tasks::run_all` (`src/tasks/tasks.rs:185-204`): iterate
the key snapshot, skip cleanup-class tasks, thread the cloned `Packages`
through `Task::run`, store returned handles, mark handle-less tasks completed,
and abort with a `TaskError` on the first failure. -/
def runAllGo (ext : Ext) (cli : Cli) :
    List Task → Tasks → Packages → List Task → List WriteEvent → RunResult
  | [], s, _pkgs, ran, writes => ⟨.ok s, ran, writes⟩
  | t :: rest, s, pkgs, ran, writes =>
    if t.isRunAfterCompleted then runAllGo ext cli rest s pkgs ran writes
    else
      match Task.run cli ext pkgs t with
      | .ok (some c, pkgs', ws) =>
        runAllGo ext cli rest (s.setChild t (some c)) pkgs' (ran ++ [t]) (writes ++ ws)
      | .ok (none, pkgs', ws) =>
        runAllGo ext cli rest (s.completeTask t) pkgs' (ran ++ [t]) (writes ++ ws)
      | .error e =>
        ⟨.error (.taskError (TaskError.fromTasks s t none e)), ran ++ [t], writes⟩

/-- Model of `Tasks::run_all` (`src/tasks/tasks.rs:178-207`): builds the git
and cargo collaborators, then runs every non-cleanup task in insertion order
against a **clone** of the owned `Packages` (`let mut packages =
self.packages.clone()`); the clone is dropped on return. -/
def Tasks.runAll (ext : Ext) (cli : Cli) (s : Tasks) : RunResult :=
  match ext.gitBuild with
  | .error e => ⟨.error (.report e), [], []⟩
  | .ok () =>
    match ext.cargoBuild with
    | .error e => ⟨.error (.report e), [], []⟩
    | .ok () => runAllGo ext cli s.taskKeys s s.packages [] []

/-- One scan of `join_all` over a snapshot of the incomplete tasks
(`src/tasks/tasks.rs:216-265`): a missing or absent handle marks the task
completed; a still-running process is left for the next pass (its remaining
poll budget decreases); a polling I/O error aborts with no captured output;
a finished process has its handle taken, then a non-zero status aborts with
the captured output and a zero status completes the task. -/
def joinPass : Tasks → List Task → Except TaskError Tasks
  | s, [] => .ok s
  | s, t :: rest =>
    match s.lookupChild t with
    | none => joinPass (s.completeTask t) rest
    | some none => joinPass (s.completeTask t) rest
    | some (some c) =>
      if 0 < c.pending then
        joinPass (s.setChild t (some { c with pending := c.pending - 1 })) rest
      else
        match c.result with
        | .error _ => .error (TaskError.fromTasks s t none "")
        | .ok code =>
          let s' := s.setChild t none
          if code ≠ 0 then
            .error (TaskError.fromTasks s' t (some c.stderr) "exited with non-zero code")
          else joinPass (s'.completeTask t) rest

/-- The outcome of `Tasks::join_all`: success, a typed `TaskError` failure,
a panic of the final `assert!`, or `spinning` — the busy-poll loop has not
finished within the given number of passes (the source loop would still be
polling; it has no timeout). -/
inductive JoinOutcome
  | ok (t : Tasks)
  | err (e : TaskError)
  | panicked
  | spinning
deriving DecidableEq, Repr

/-- Model of `Tasks::join_all` (`src/tasks/tasks.rs:212-275`), step-indexed by
the number of outer `while` passes: while incomplete tasks remain, scan them;
once none remain, the final
`assert!(run_after_completed_tasks().len() == incomplete_tasks().len())`
decides between success and a panic. -/
def joinAllAux : Nat → Tasks → JoinOutcome
  | 0, _ => .spinning
  | n + 1, s =>
    if s.incompleteTasks = [] then
      if s.runAfterCompletedTasks.length = s.incompleteTasks.length then .ok s
      else .panicked
    else
      match joinPass s s.incompleteTasks with
      | .error e => .err e
      | .ok s' => joinAllAux n s'

/-- The loop body of `run_cleanup_tasks`: run each cleanup task in order,
aborting on the first failure. -/
def cleanupGo (ext : Ext) (cli : Cli) :
    List Task → Packages → List Task → List WriteEvent →
      Except RunError Unit × List Task × List WriteEvent
  | [], _pkgs, ran, writes => (.ok (), ran, writes)
  | t :: rest, pkgs, ran, writes =>
    match Task.run cli ext pkgs t with
    | .ok (_, pkgs', ws) => cleanupGo ext cli rest pkgs' (ran ++ [t]) (writes ++ ws)
    | .error e => (.error (.report e), ran ++ [t], writes)

/-- Model of `Tasks::run_cleanup_tasks` (`src/tasks/tasks.rs:277-290`): builds
the collaborators, then runs exactly the run-after-completed tasks in
insertion order against a clone of the owned `Packages`, returning the state
unchanged. -/
def Tasks.runCleanupTasks (ext : Ext) (cli : Cli) (s : Tasks) : RunResult :=
  match ext.gitBuild with
  | .error e => ⟨.error (.report e), [], []⟩
  | .ok () =>
    match ext.cargoBuild with
    | .error e => ⟨.error (.report e), [], []⟩
    | .ok () =>
      let (res, ran, writes) := cleanupGo ext cli s.runAfterCompletedTasks s.packages [] []
      ⟨res.map (fun _ => s), ran, writes⟩

end Cuv

namespace Cuv

/-- Stable insertion of a keyed entry into a key-sorted list (used to model
`IndexSet::sort_by(|a, b| a.0.cmp(&b.0))`, a stable sort). -/
def insSortedByKey (x : Nat × Version) : List (Nat × Version) → List (Nat × Version)
  | [] => [x]
  | y :: ys => if y.1 < x.1 then y :: insSortedByKey x ys else x :: y :: ys

/-- Stable sort by the numeric key. -/
def stableSortByKey (l : List (Nat × Version)) : List (Nat × Version) :=
  l.foldr insSortedByKey []

/-- The scan over version-change tasks in `Tasks::root_version`
(`src/tasks/tasks.rs:337-366`): a version task for the root package returns
its version immediately; workspace tasks are collected with precedence 2 and
other package tasks with precedence 3 (the `IndexSet` de-duplicates); any
other task kind is `unreachable!()` there. -/
def rootVerLoop (rootName : RStr) :
    List Task → List (Nat × Version) → Except RunError (Version ⊕ List (Nat × Version))
  | [], acc => .ok (.inr acc)
  | t :: rest, acc =>
    match t with
    | .set name v =>
      if name = rootName then .ok (.inl v)
      else rootVerLoop rootName rest (dedupInsert acc (3, v))
    | .setWorkspace v => rootVerLoop rootName rest (dedupInsert acc (2, v))
    | .bump name _ v =>
      if name = rootName then .ok (.inl v)
      else rootVerLoop rootName rest (dedupInsert acc (3, v))
    | .bumpWorkspace _ v => rootVerLoop rootName rest (dedupInsert acc (2, v))
    | _ => .error (.report "unreachable: non-version-change task")

/-- Model of `Tasks::root_version` (`src/tasks/tasks.rs:326-380`): the
packages' root version must resolve; with no pending version-change tasks it
is the answer; otherwise a root-package version task wins, then the first
workspace-precedence entry after a stable sort, then a single remaining
candidate; anything else is a `NoRootVersion` error. -/
def Tasks.rootVersion (s : Tasks) : Except RunError Version :=
  match s.packages.rootVersion with
  | .error e => .error (.packageErr e)
  | .ok packagesRootVersion =>
    let versionTasks := s.versionChangeTasks
    let rootName := (s.packages.getRootPackage.map Package.name).getD []
    if versionTasks = [] then .ok packagesRootVersion
    else
      match rootVerLoop rootName versionTasks [] with
      | .error e => .error e
      | .ok (.inl v) => .ok v
      | .ok (.inr versions) =>
        let versions := stableSortByKey versions
        match versions.find? (fun e => e.1 = 2) with
        | some e => .ok e.2
        | none =>
          if versions.length = 1 then
            match versions.getLast? with
            | some e => .ok e.2
            | none => .error (.packageErr .noRootVersion)
          else .error (.packageErr .noRootVersion)

/-- Model of `Task::from_action` (`src/tasks/task.rs:171-198`): bump actions
compute the bumped version of the given package and yield a `Bump` task; `set`
requires an explicit version; `tree` and `print` yield display tasks. -/
def Task.fromAction (action : Action) (package : Package) (setVersion : Option Version)
    (preRelease : Option (List SvId)) (build : Option RStr) (forceVersion : Bool) :
    Except RunError Task :=
  match action with
  | .pre | .patch | .minor | .major =>
    match Cuv.bump action preRelease build forceVersion package.version with
    | .ok nv => .ok (.bump package.name action nv)
    | .error e => .error (.version e)
  | .set =>
    match setVersion with
    | some v => .ok (.set package.name v)
    | none => .error (.report "Expected a version for Task::from_action when the action is Set")
  | .tree => .ok .workspaceTree
  | .print => .ok (.displayVersion package.name)

/-- Model of `Cli::try_allow_dirty` (`src/cli/cli.rs:151-169`): with
`--allow-dirty` the check is skipped; otherwise the working tree must have no
dirty files. -/
def tryAllowDirty (ext : Ext) (cli : Cli) : Except RunError Unit :=
  if cli.allow_dirty then .ok ()
  else
    match ext.dirtyFiles with
    | .error e => .error (.report e)
    | .ok files =>
      if files.length ≠ 0 then
        .error (.report "files in the working directory contain uncommitted changes")
      else .ok ()

/-- Model of `Path::strip_prefix(cwd)` with fallback to the original path
(`src/tasks/predict_tasks.rs:193-199`), on `'/'`-separated path strings. -/
def stripPathPfx (cwd p : RStr) : RStr :=
  if (cwd ++ ['/']).isPrefixOf p then p.drop (cwd.length + 1) else p

/-- The per-included-package loop of `generate_tasks`
(`src/tasks/predict_tasks.rs:135-160`): workspace-inherited packages flip the
workspace flag and contribute no task; every other package contributes its
manifest path, its action task, and — outside dry runs — a manifest write
task ordered right after its version task. -/
def genLoop (cli : Cli) (preRelease : Option (List SvId)) (build : Option RStr)
    (forceVersion : Bool) :
    List Package → Tasks → Bool → List RStr →
      Except RunError (Tasks × Bool × List RStr)
  | [], tasks, changeWs, paths => .ok (tasks, changeWs, paths)
  | p :: rest, tasks, changeWs, paths =>
    if p.version_type = .setByWorkspace then
      genLoop cli preRelease build forceVersion rest tasks true paths
    else
      match Task.fromAction cli.action p cli.set_version preRelease build forceVersion with
      | .error e => .error e
      | .ok task =>
        let paths := paths ++ [p.manifest_path]
        let tasks := tasks.insertTask task none
        let tasks :=
          if ¬cli.dry_run ∧ task.isVersionChange then
            tasks.insertTask (.writeCargoToml p.name) none
          else tasks
        genLoop cli preRelease build forceVersion rest tasks changeWs paths

/-- The workspace-package section of `generate_tasks`
(`src/tasks/predict_tasks.rs:162-187`). -/
def genWorkspaceSection (cli : Cli) (preRelease : Option (List SvId))
    (build : Option RStr) (forceVersion : Bool) (tasks : Tasks) :
    Except RunError Tasks :=
  match tasks.packages.workspace_package with
  | none => .error (.report "workspace.pa")
  | some wp =>
    let wsName := wp.name
    let newVersion := wp.version
    let taskRes : Except RunError Task :=
      match cli.action with
      | .pre | .patch | .minor | .major =>
        match bump cli.action preRelease build forceVersion newVersion with
        | .ok nv => .ok (.bumpWorkspace cli.action nv)
        | .error e => .error (.version e)
      | .set =>
        match cli.set_version with
        | some v => .ok (.setWorkspace v)
        | none =>
          .error (.report "Expected a new version for Task::from_action when action is Set")
      | .print => .ok (.displayVersion workspacePackageName)
      | .tree => .ok .workspaceTree
    match taskRes with
    | .error e => .error e
    | .ok task =>
      let tasks := tasks.insertTask task none
      if ¬cli.dry_run ∧ task.isVersionChange then
        .ok (tasks.insertTask (.writeCargoToml wsName) none)
      else .ok tasks

/-- The git-tag section of `generate_tasks`
(`src/tasks/predict_tasks.rs:190-216`): lockfile regeneration, a `git add` of
the manifest paths (made relative to the working directory) plus the lockfile,
commit, tag, and — when pushing — one push task per configured remote. -/
def genGitTagSection (ext : Ext) (cli : Cli) (rootCargoLock : RStr)
    (newVersion : Version) (tasks : Tasks) (paths : List RStr) :
    Except RunError Tasks :=
  let tasks := tasks.insertTask .cargoGenerateLock none
  let paths := paths ++ [rootCargoLock]
  let paths := paths.map (stripPathPfx ext.cwd)
  let tasks := tasks.insertTask (.gitAdd paths) none
  let tasks := tasks.insertTask .gitCommit none
  let tasks := tasks.insertTask (.gitTag newVersion) none
  if cli.git_push then
    match ext.remotes with
    | .error e => .error (.report e)
    | .ok remotes =>
      .ok (remotes.foldl
        (fun ts remote =>
          ts.insertTask (.gitPush remote (versionToString newVersion)) none)
        tasks)
  else .ok tasks

/-- Model of `Tasks::generate_tasks` (`src/tasks/predict_tasks.rs:83-253`),
without the `unstable`-feature branch-switch/stash blocks (compiled out).
The steps in source order: the dirty-tree check, collaborator construction
(dirty files and current branch are queried), package partition with a
fail-fast on an empty selection, the per-package loop, the workspace-package
section, root-version resolution, the git-tag section, the publish task, and
— on a dry run — the `DeleteGitTag` cleanup task inserted second to last. -/
def generateTasks (ext : Ext) (cli : Cli) (packages : Packages) :
    Except RunError Tasks := do
  match tryAllowDirty ext cli with
  | .error e => throw e
  | .ok () => pure ()
  let rootCargoLock := packages.root_cargo_lock
  let tasks := Tasks.new packages
  match ext.gitBuild with
  | .error e => throw (.report e)
  | .ok () => pure ()
  let _gitFiles ← match ext.dirtyFiles with
    | .error e => throw (RunError.report e)
    | .ok fs => pure fs
  match ext.cargoBuild with
  | .error e => throw (.report e)
  | .ok () => pure ()
  let _currentBranch ← match ext.currentBranch with
    | .error e => throw (RunError.report e)
    | .ok b => pure b
  let changeWs := cli.workspace.workspace_package
  match cli.workspace.partitionPackages tasks.packages with
  | none => throw (.report "unreachable: conflicting selection flags")
  | some (included, _excluded) => do
    if included = [] then
      throw (.report "No packages to modify.")
    let (tasks, changeWs, paths) ←
      genLoop cli cli.pre cli.build cli.force_version included tasks changeWs []
    let tasks ←
      if changeWs then genWorkspaceSection cli cli.pre cli.build cli.force_version tasks
      else pure tasks
    let newVersion ← tasks.rootVersion
    let tasks ←
      if cli.git_tag then genGitTagSection ext cli rootCargoLock newVersion tasks paths
      else pure tasks
    let tasks := if cli.cargo_publish then tasks.insertTask .cargoPublish none else tasks
    let tasks := if cli.dry_run then tasks.insertTask (.deleteGitTag newVersion) none
      else tasks
    return tasks

end Cuv

namespace Cuv

/-- Version `1.0.0-alpha`. -/
def verAlpha : Version := ⟨1, 0, 0, [.alnum "alpha".toList], []⟩

/-- Version `1.0.0-alpha+b`. -/
def verAlphaB : Version := ⟨1, 0, 0, [.alnum "alpha".toList], "b".toList⟩

/-- Version `1.0.0-alpha.2`. -/
def ver102 : Version := ⟨1, 0, 0, [.alnum "alpha".toList, .num 2], []⟩

/-- Version `1.0.0-alpha.3`. -/
def ver103 : Version := ⟨1, 0, 0, [.alnum "alpha".toList, .num 3], []⟩

/-- Version `1.0.0-2`: a prerelease whose single (hence last) field is Numeric. -/
def verOneDashTwo : Version := ⟨1, 0, 0, [.num 2], []⟩

/-- Version `0.1.1-alpha.2` (the spec's minor-bump scenario input). -/
def ver011a2 : Version := ⟨0, 1, 1, [.alnum "alpha".toList, .num 2], []⟩

/-- Version `0.2.0`. -/
def ver020 : Version := ⟨0, 2, 0, [], []⟩

/-- Version `1.0.0`. -/
def ver100 : Version := ⟨1, 0, 0, [], []⟩

/-- Version `1.2.3`. -/
def ver123 : Version := ⟨1, 2, 3, [], []⟩

/-- Version `1.2.4`. -/
def ver124 : Version := ⟨1, 2, 4, [], []⟩

/-- Version `2.0.0`. -/
def ver200 : Version := ⟨2, 0, 0, [], []⟩

/-- The decimal digits of `2^64`, an all-digit identifier exceeding `u64`. -/
def bigDigits : RStr := "18446744073709551616".toList

/-- The scenario package name. -/
def appName : RStr := "app".toList

/-- The scenario package's manifest document: an own `package.version`. -/
def cargoFileApp : CargoFile := ⟨some (some ver123), none⟩

/-- A one-package scenario workspace member at version `1.2.3`. -/
def packageApp : Package :=
  ⟨appName, .package, ver123, "/w/app/Cargo.toml".toList, cargoFileApp⟩

/-- The scenario workspace: a single root package `app`. -/
def packagesApp : Packages :=
  ⟨"/w".toList, "/w/Cargo.toml".toList, "/w/Cargo.lock".toList,
   some appName, some ver123, [appName], [(appName, packageApp)], none⟩

/-- A benign collaborator environment: a clean tree, one remote, every
external action succeeding, every spawned process exiting 0 immediately. -/
def extApp : Ext :=
  { cwd := "/w".toList
    gitBuild := .ok ()
    cargoBuild := .ok ()
    dirtyFiles := .ok []
    currentBranch := .ok "main".toList
    remotes := .ok ["origin".toList]
    push := fun _ _ _ => .ok ⟨0, .ok 0, ""⟩
    publish := fun _ _ _ => .ok ⟨0, .ok 0, ""⟩
    tag := fun _ _ => .ok ()
    addFiles := fun _ => .ok ()
    commit := fun _ _ => .ok ()
    generateLockfile := .ok () }

/-- Selection flags with nothing set (root-package mode). -/
def wsFlagsNone : Workspace := ⟨[], [], false, false, false⟩

/-- Selection flags with both `--workspace` and `--default-members` set
(declared conflicting in the CLI; `unreachable!()` in `from_flags`). -/
def wsFlagsBoth : Workspace := ⟨[], [], true, false, true⟩

/-- CLI intent: `set 2.0.0`, no dry run, no git, no publish. -/
def cliSet : Cli :=
  { action := .set, set_version := some ver200, pre := none, build := none
    force_version := false, dry_run := false, allow_dirty := true, no_verify := false
    git_message := none, git_tag := false, git_push := false, cargo_publish := false
    display_tasks := false, workspace := wsFlagsNone }

/-- CLI intent: patch bump as a dry run with git tagging requested. -/
def cliDryTag : Cli :=
  { action := .patch, set_version := none, pre := none, build := none
    force_version := false, dry_run := true, allow_dirty := true, no_verify := false
    git_message := none, git_tag := true, git_push := false, cargo_publish := false
    display_tasks := false, workspace := wsFlagsNone }

/-- A task list holding only a version-set task for `app`. -/
def tasksSetOnly : Tasks := ⟨[(.set appName ver200, none)], [], packagesApp⟩

/-- A task list holding a version-set task followed by its manifest write. -/
def tasksSetWrite : Tasks :=
  ⟨[(.set appName ver200, none), (.writeCargoToml appName, none)], [], packagesApp⟩

/-- A task list holding only a cleanup task (`DeleteGitTag`), as a dry run
generates; no process handle is attached. -/
def tasksCleanupOnly : Tasks := ⟨[(.deleteGitTag ver100, none)], [], packagesApp⟩

/-- Scenario process task: a push whose process exits 0 after one more poll. -/
def taskProcA : Task := .gitPush "origin".toList "1.0.0".toList

/-- Scenario process task: a publish whose process already exited 0. -/
def taskProcB : Task := .cargoPublish

/-- Scenario local task (already completed by `run_all`). -/
def taskLocal : Task := .displayVersion appName

/-- Three queued tasks: two spawned processes that both exit 0, one local
task already completed. -/
def tasksThree : Tasks :=
  ⟨[(taskProcA, some ⟨1, .ok 0, ""⟩), (taskProcB, some ⟨0, .ok 0, ""⟩),
    (taskLocal, none)],
   [taskLocal], packagesApp⟩

/-- The expected final state of the three-task scenario: every handle taken
or absent, all three tasks completed. -/
def tasksThreeDone : Tasks :=
  ⟨[(taskProcA, none), (taskProcB, none), (taskLocal, none)],
   [taskLocal, taskProcB, taskProcA], packagesApp⟩

/-- Two spawned tasks — one exits 0 at once, one exits 101 with stderr
`boom` — plus a task whose process is still running. -/
def tasksFailScenario : Tasks :=
  ⟨[(taskProcA, some ⟨0, .ok 0, ""⟩), (taskProcB, some ⟨0, .ok 101, "boom"⟩),
    (.gitTag ver100, some ⟨5, .ok 0, ""⟩)],
   [], packagesApp⟩

/-- The typed failure report of the failing scenario. -/
def failErr : TaskError :=
  { completed_tasks := [taskProcA]
    incomplete_tasks := [taskProcB, .gitTag ver100]
    errored_task := taskProcB
    output := "boom"
    msg := "exited with non-zero code" }

/-- The task keys generated by the dry-run + git-tag scenario. -/
def genKeys : List Task :=
  [.bump appName .patch ver124, .cargoGenerateLock,
   .gitAdd ["app/Cargo.toml".toList, "Cargo.lock".toList],
   .gitCommit, .gitTag ver124, .deleteGitTag ver124]

/-- The tasks `run_all` executes in the dry-run + git-tag scenario. -/
def genRanList : List Task :=
  [.bump appName .patch ver124, .cargoGenerateLock,
   .gitAdd ["app/Cargo.toml".toList, "Cargo.lock".toList],
   .gitCommit, .gitTag ver124]

end Cuv
theorem charCmp_self (a : Char) : charCmp a a = .eq := by
  simp [charCmp, Nat.compare_eq_eq]

theorem lexCmp_self (s : RStr) : lexCmp s s = .eq := by
  induction s with
  | nil => rfl
  | cons a as ih => simp [lexCmp, charCmp_self, ih]

theorem splitOnce_append (c : Char) (xs ys : RStr) (h : c ∉ xs) :
    splitOnce c (xs ++ c :: ys) = some (xs, ys) := by
  induction xs with
  | nil => simp [splitOnce]
  | cons a as ih =>
    simp only [List.mem_cons, not_or] at h
    simp [splitOnce, Ne.symm h.1, ih h.2]

theorem splitAll_ne_nil (c : Char) (s : RStr) : splitAll c s ≠ [] := by
  induction s with
  | nil => simp [splitAll]
  | cons a as ih =>
    by_cases h : a = c
    · simp [splitAll, h]
    · simp only [splitAll, if_neg h]
      cases hs : splitAll c as with
      | nil => simp
      | cons f rest => simp

theorem splitAll_append (c : Char) (xs ys : RStr) (h : c ∉ xs) :
    splitAll c (xs ++ c :: ys) = xs :: splitAll c ys := by
  induction xs with
  | nil => simp [splitAll]
  | cons a as ih =>
    simp only [List.mem_cons, not_or] at h
    have hne : ¬a = c := fun hc => h.1 hc.symm
    rw [List.cons_append, splitAll, if_neg hne, ih h.2]

theorem splitAll_no_sep (c : Char) (xs : RStr) (h : c ∉ xs) :
    splitAll c xs = [xs] := by
  induction xs with
  | nil => rfl
  | cons a as ih =>
    simp only [List.mem_cons, not_or] at h
    have hne : ¬a = c := fun hc => h.1 hc.symm
    rw [splitAll, if_neg hne, ih h.2]

theorem digitsVal_go (s : RStr) (a : Nat) :
    s.foldl (fun acc c => 10 * acc + digitVal c) a
      = a * 10 ^ s.length + digitsVal s := by
  induction s generalizing a with
  | nil =>
    rw [List.foldl_nil]
    have h0 : digitsVal ([] : RStr) = 0 := rfl
    rw [h0]
    simp
  | cons c cs ih =>
    rw [List.foldl_cons, ih]
    have hu : digitsVal (c :: cs)
        = (10 * 0 + digitVal c) * 10 ^ cs.length + digitsVal cs := by
      show List.foldl _ 0 (c :: cs) = _
      rw [List.foldl_cons, ih]
    rw [hu, List.length_cons]
    ring

theorem digitsVal_append (s t : RStr) :
    digitsVal (s ++ t) = digitsVal s * 10 ^ t.length + digitsVal t := by
  simp only [digitsVal, List.foldl_append]
  have := digitsVal_go t (List.foldl (fun acc c => 10 * acc + digitVal c) 0 s)
  simpa [digitsVal] using this

theorem natToStringAux_ne_nil (fuel n : Nat) (h : 0 < fuel) :
    natToStringAux fuel n ≠ [] := by
  cases fuel with
  | zero => omega
  | succ f =>
    rw [natToStringAux]
    split <;> simp

theorem natToString_ne_nil (n : Nat) : natToString n ≠ [] :=
  natToStringAux_ne_nil (n + 1) n (by omega)

theorem digitVal_digitChar (n : Nat) : digitVal (digitChar n) = n % 10 := by
  have h : n % 10 < 10 := Nat.mod_lt _ (by omega)
  unfold digitChar
  generalize n % 10 = m at *
  interval_cases m <;> decide

theorem isDigit_digitChar (n : Nat) : (digitChar n).isDigit = true := by
  have h : n % 10 < 10 := Nat.mod_lt _ (by omega)
  unfold digitChar
  generalize n % 10 = m at *
  interval_cases m <;> decide

theorem natToStringAux_all_digits (fuel : Nat) :
    ∀ n, ∀ c ∈ natToStringAux fuel n, c.isDigit = true := by
  induction fuel with
  | zero => intro n c hc; simp [natToStringAux] at hc
  | succ f ih =>
    intro n c hc
    rw [natToStringAux] at hc
    split at hc
    · simp only [List.mem_singleton] at hc
      subst hc
      exact isDigit_digitChar n
    · rcases List.mem_append.mp hc with hc | hc
      · exact ih (n / 10) c hc
      · simp only [List.mem_singleton] at hc
        subst hc
        exact isDigit_digitChar n

theorem natToString_all_digits (n : Nat) :
    ∀ c ∈ natToString n, c.isDigit = true :=
  natToStringAux_all_digits (n + 1) n

theorem digitsVal_natToStringAux (fuel : Nat) :
    ∀ n, n < fuel → digitsVal (natToStringAux fuel n) = n := by
  induction fuel with
  | zero => intro n h; omega
  | succ f ih =>
    intro n h
    rw [natToStringAux]
    split
    case isTrue hlt =>
      have hv := digitVal_digitChar n
      have : n % 10 = n := Nat.mod_eq_of_lt hlt
      simp [digitsVal, hv, this]
    case isFalse hge =>
      have hfuel : n / 10 < f := by
        have hlt : n / 10 < n := Nat.div_lt_self (by omega) (by omega)
        omega
      have hd := ih (n / 10) hfuel
      rw [digitsVal_append, hd]
      have hone : digitsVal [digitChar n] = n % 10 := by
        simpa [digitsVal] using digitVal_digitChar n
      rw [hone]
      simp only [List.length_singleton, pow_one]
      omega

theorem digitsVal_natToString (n : Nat) : digitsVal (natToString n) = n :=
  digitsVal_natToStringAux (n + 1) n (by omega)

theorem natToStringAux_head_ne_zero (fuel : Nat) :
    ∀ n, n < fuel → 0 < n → (natToStringAux fuel n).head? ≠ some '0' := by
  induction fuel with
  | zero => intro n h; omega
  | succ f ih =>
    intro n h hpos
    rw [natToStringAux]
    split
    case isTrue hlt =>
      have : n % 10 = n := Nat.mod_eq_of_lt hlt
      unfold digitChar
      rw [this]
      interval_cases n <;> decide
    case isFalse hge =>
      have hfuel : n / 10 < f := by
        have hlt : n / 10 < n := Nat.div_lt_self (by omega) (by omega)
        omega
      have hdiv : 0 < n / 10 := Nat.div_pos (by omega) (by omega)
      have hne := natToStringAux_ne_nil f (n / 10)
        (by omega)
      have := ih (n / 10) hfuel hdiv
      cases hx : natToStringAux f (n / 10) with
      | nil => exact absurd hx hne
      | cons a rest =>
        rw [hx] at this
        simpa using this

theorem natToString_head_ne_zero (n : Nat) (hpos : 0 < n) :
    (natToString n).head? ≠ some '0' :=
  natToStringAux_head_ne_zero (n + 1) n (by omega) hpos

namespace Cuv

theorem svidCmp_self (i : SvId) : svidCmp i i = .eq := by
  cases i with
  | num n => simp [svidCmp, Nat.compare_eq_eq]
  | alnum s => simp [svidCmp, lexCmp_self]

theorem svChar_of_isDigit (c : Char) (h : c.isDigit = true) : svChar c = true := by
  simp [svChar, h]

theorem dot_not_isDigit : ('.' : Char).isDigit = false := by decide

theorem dot_not_svChar : svChar '.' = false := by decide

theorem toRStr_no_dot (i : SvId) (h : WfSvId i) : '.' ∉ i.toRStr := by
  cases i with
  | num n =>
    intro hmem
    have := natToString_all_digits n '.' hmem
    simp [dot_not_isDigit] at this
  | alnum s =>
    intro hmem
    have := h.2.1 '.' hmem
    simp [dot_not_svChar] at this

theorem plus_not_isDigit : ('+' : Char).isDigit = false := by decide

theorem parseU64_natToString (n : Nat) (h : n < u64Size) :
    parseU64 (natToString n) = some n := by
  have hne := natToString_ne_nil n
  have hd := natToString_all_digits n
  have hhead : (natToString n).head? ≠ some '+' := by
    cases hx : natToString n with
    | nil => exact absurd hx hne
    | cons a rest =>
      have ha : a.isDigit = true := hd a (by rw [hx]; exact List.mem_cons_self a rest)
      simp only [List.head?_cons, ne_eq, Option.some.injEq]
      intro hcontra
      rw [hcontra] at ha
      simp [plus_not_isDigit] at ha
  unfold parseU64
  rw [if_neg hhead]
  have hall : (natToString n).all Char.isDigit = true := List.all_eq_true.mpr hd
  rw [if_pos ⟨hne, hall, by rw [digitsVal_natToString]; exact h⟩,
    digitsVal_natToString]

theorem natToString_lt_ten (n : Nat) (h : n < 10) : natToString n = [digitChar n] := by
  unfold natToString natToStringAux
  simp [h]

theorem parseSvField_natToString (n : Nat) :
    parseSvField (natToString n) = some (.num n) := by
  have hne := natToString_ne_nil n
  have hd := natToString_all_digits n
  have hall : (natToString n).all Char.isDigit = true := List.all_eq_true.mpr hd
  have hsv : (natToString n).all svChar = true :=
    List.all_eq_true.mpr (fun c hc => svChar_of_isDigit c (hd c hc))
  have hnolead : ¬((natToString n).length > 1 ∧ (natToString n).head? = some '0') := by
    by_cases hn : n < 10
    · rw [natToString_lt_ten n hn]
      simp
    · intro hcontra
      exact natToString_head_ne_zero n (by omega) hcontra.2
  unfold parseSvField
  rw [if_neg (by simpa using hne), if_neg (by simp [hsv]), if_pos hall,
    if_neg hnolead, digitsVal_natToString]

theorem parseSvField_toRStr (i : SvId) (h : WfSvId i) :
    parseSvField i.toRStr = some i := by
  cases i with
  | num n => exact parseSvField_natToString n
  | alnum s =>
    obtain ⟨hne, hsv, hnd⟩ := h
    have hsv' : s.all svChar = true := List.all_eq_true.mpr hsv
    have hnd' : ¬(s.all Char.isDigit = true) := by
      intro hcontra
      exact hnd (List.all_eq_true.mp hcontra)
    show parseSvField s = some (.alnum s)
    unfold parseSvField
    rw [if_neg hne, if_neg (by simp [hsv']), if_neg hnd']

theorem preToString_pair (i x : SvId) :
    preToString [i, x] = i.toRStr ++ '.' :: x.toRStr := by
  rfl

theorem parsePrerelease_pair (i : SvId) (h : WfSvId i) (n : Nat) :
    parsePrerelease (i.toRStr ++ '.' :: natToString n) = some [i, .num n] := by
  have hne : i.toRStr ++ '.' :: natToString n ≠ [] := by
    cases htr : i.toRStr <;> simp
  have hnodot : '.' ∉ natToString n := by
    intro hmem
    have := natToString_all_digits n '.' hmem
    simp [dot_not_isDigit] at this
  unfold parsePrerelease
  rw [if_neg hne, splitAll_append '.' _ _ (toRStr_no_dot i h),
    splitAll_no_sep '.' _ hnodot]
  simp [List.mapM, List.mapM.loop, parseSvField_toRStr i h, parseSvField_natToString]

theorem nat_compare_self (n : Nat) : compare n n = .eq := by
  simp [Nat.compare_eq_eq]

theorem nat_compare_succ_gt (n : Nat) : compare (n + 1) n = .gt := by
  simp [Nat.compare_eq_gt]

end Cuv

namespace Cuv

theorem tryBumpPre_two_fields (i : SvId) (n : Nat) (v : Version) (f : Bool)
    (hwf : WfSvId i) (hpre : v.pre = [i, .num n]) (hb : n + 1 < u64Size) :
    tryBumpPre f v = .ok { v with pre := [i, .num (n + 1)] } := by
  have hnonnil : v.pre ≠ [] := by rw [hpre]; simp
  have hlt : n < u64Size := by omega
  have hgt : versionCmp { v with pre := [i, .num (n + 1)] } v = .gt := by
    have hsucc : svidCmp (SvId.num (n + 1)) (SvId.num n) = .gt := by
      simp [svidCmp, nat_compare_succ_gt]
    unfold versionCmp
    rw [hpre]
    simp [nat_compare_self, preCmp, preListCmp, svidCmp_self, hsucc]
  unfold tryBumpPre
  rw [if_neg hnonnil, hpre, preToString_pair]
  show (match splitOnce '.' (i.toRStr ++ '.' :: natToString n) with
    | some (id, rest) => _
    | none => _) = _
  rw [splitOnce_append '.' _ _ (toRStr_no_dot i hwf)]
  simp only [parseU64_natToString n hlt, Nat.mod_eq_of_lt hb,
    parsePrerelease_pair i hwf (n + 1), hgt, if_pos]

end Cuv

namespace Cuv

theorem tryBumpPre_empty (v : Version) (f : Bool) (h : v.pre = []) :
    tryBumpPre f v = .error .prereleaseNotSet := by
  unfold tryBumpPre
  rw [if_pos h]

theorem tryBumpPre_bad_rest (v : Version) (f : Bool) (id rest : RStr)
    (h1 : v.pre ≠ []) (h2 : splitOnce '.' (preToString v.pre) = some (id, rest))
    (h3 : parseU64 rest = none) :
    ∃ a b, tryBumpPre f v = .error (.invalidIncrementable a b) := by
  have key : tryBumpPre f v = .error (.invalidIncrementable
      ((findChar '.' (preToString v.pre)).getD 0 +
        ((findChar '-' (versionToString v)).getD 0 + 2 + 11))
      (if (preToString v.pre).length ≥ 1 + (findChar '.' (preToString v.pre)).getD 0
        then (preToString v.pre).length - 1 - (findChar '.' (preToString v.pre)).getD 0
        else 0)) := by
    unfold tryBumpPre
    rw [if_neg h1]
    show (match splitOnce '.' (preToString v.pre) with
      | some (id, rest) => _
      | none => _) = _
    rw [h2]
    show (match parseU64 rest with | some n => _ | none => _) = _
    rw [h3]
  exact ⟨_, _, key⟩

theorem tryBumpPre_no_dot (v : Version) (f : Bool)
    (h1 : v.pre ≠ []) (h2 : splitOnce '.' (preToString v.pre) = none) :
    tryBumpPre f v = .error .notSplitByDot := by
  unfold tryBumpPre
  rw [if_neg h1]
  show (match splitOnce '.' (preToString v.pre) with
    | some (id, rest) => _
    | none => _) = _
  rw [h2]

/-- C1 counterexample: version `1.0.0-2` has a non-empty prerelease whose
last (and only) dot-separated field is Numeric (`splitAll` yields the single
field `"2"`, classified `Numeric 2`), yet `try_bump_pre` does not return the
incremented `1.0.0-3` — it hard-errors because `split_once('.')` finds no dot.
This falsifies the claim that any version whose prerelease's last field is
Numeric is bumped successfully. -/
theorem c1_counterexample :
    verOneDashTwo.pre ≠ [] ∧
    splitAll '.' (preToString verOneDashTwo.pre) = [['2']] ∧
    parseSvField ['2'] = some (.num 2) ∧
    tryBumpPre false verOneDashTwo = .error .notSplitByDot ∧
    tryBumpPre false verOneDashTwo ≠ .ok ⟨1, 0, 0, [.num 3], []⟩ := by
  decide

/-- C1 (amended): a Pre bump (any force value) succeeds exactly on
prereleases of the form `id.num` — two dot-separated fields, everything after
the **first** dot a `u64` numeral — incrementing that numeral and leaving all
other fields unchanged (so `1.0.0-alpha.2` bumps to `1.0.0-alpha.3`); an
empty prerelease fails with the `Prerelease not set` error; a prerelease
whose remainder after the first dot is not a `u64` numeral is a hard error
carrying the offending character span; a prerelease without any dot is a
hard `not split by '.'` error. -/
theorem c1_theorem :
    (∀ (i : SvId) (n : Nat) (v : Version) (f : Bool),
        WfSvId i → v.pre = [i, .num n] → n + 1 < u64Size →
        tryBumpPre f v = .ok { v with pre := [i, .num (n + 1)] }) ∧
    (∀ (v : Version) (f : Bool), v.pre = [] →
        tryBumpPre f v = .error .prereleaseNotSet) ∧
    (∀ (v : Version) (f : Bool) (id rest : RStr),
        v.pre ≠ [] → splitOnce '.' (preToString v.pre) = some (id, rest) →
        parseU64 rest = none →
        ∃ a b, tryBumpPre f v = .error (.invalidIncrementable a b)) ∧
    (∀ (v : Version) (f : Bool),
        v.pre ≠ [] → splitOnce '.' (preToString v.pre) = none →
        tryBumpPre f v = .error .notSplitByDot) ∧
    tryBumpPre false ver102 = .ok ver103 := by
  refine ⟨tryBumpPre_two_fields, tryBumpPre_empty, tryBumpPre_bad_rest,
    tryBumpPre_no_dot, ?_⟩
  decide

/-- C3: on `1.0.0-alpha` with `force` unset, both the minor and the major
bump fail with the `prerelease not empty` error, but the error raised by
`try_bump_major` names the **Minor** bump kind (`src/version.rs:103-106`
passes `Action::Minor`), contradicting the claim that it names Major; the
minor-bump path names Minor correctly, and with `force` set the spec scenario
`0.1.1-alpha.2 → 0.2.0` holds. -/
theorem c3_theorem :
    tryBumpMajor false verAlpha = .error (.prereleaseNotEmpty verAlpha .minor) ∧
    tryBumpMajor false verAlpha ≠ .error (.prereleaseNotEmpty verAlpha .major) ∧
    Action.minor ≠ Action.major ∧
    tryBumpMinor false ver011a2 = .error (.prereleaseNotEmpty ver011a2 .minor) ∧
    tryBumpMinor true ver011a2 = .ok ver020 := by
  decide

/-- C5 counterexample: with `force` unset, a Patch bump of `1.0.0-alpha`
with prerelease override `alpha` and build override `b` returns
`Ok(1.0.0-alpha+b)`, which has exactly the same SemVer *precedence* as the
input — not strictly greater under semantic-version ordering (the code's
final check uses the crate ordering, whose build-metadata tiebreak accepts
it). -/
theorem c5_counterexample :
    bump .patch (some [.alnum "alpha".toList]) (some "b".toList) false verAlpha
      = .ok verAlphaB ∧
    precedenceCmp verAlpha verAlphaB = .eq ∧
    precedenceCmp verAlphaB verAlpha ≠ .gt := by
  decide

/-- C5 (amended): whenever `bump` is called with `force` unset and returns
`Ok(v')`, the result is strictly greater than the input under the ordering
the code checks — the semver crate's `Version` ordering, i.e. SemVer
precedence extended with a final build-metadata tiebreak. -/
theorem c5_theorem (action : Action) (preRelease : Option (List SvId))
    (build : Option RStr) (v v' : Version)
    (h : bump action preRelease build false v = .ok v') :
    versionCmp v' v = .gt := by
  unfold bump at h
  split at h
  next => exact absurd h (by simp)
  next v1 heq =>
    split at h
    next =>
      dsimp only at h
      split at h
      next hgt =>
        simp only [Except.ok.injEq] at h
        subst h
        exact hgt
      next => exact absurd h (by simp)
    next hc => simp at hc

/-- C5 witness: the amended theorem applied at the patch bump of `1.2.3`. -/
theorem c5_witness : versionCmp ver124 ver123 = .gt :=
  c5_theorem .patch none none ver123 ver124 (by decide)

end Cuv

namespace Cuv

/-- C8: the `Identifier` comparison orders every Numeric identifier strictly
below every Alphanumeric identifier regardless of string content; two Numeric
identifiers compare as the integers they denote (their parsed `u64` values);
two Alphanumeric identifiers compare lexically in ASCII order. -/
theorem c8_theorem :
    (∀ a b : Identifier, a.kind = .numeric → b.kind = .alphanumeric →
        identCmp a b = some .lt ∧ identCmp b a = some .gt) ∧
    (∀ (a b : Identifier) (m n : Nat), a.kind = .numeric → b.kind = .numeric →
        parseU64 a.ident = some m → parseU64 b.ident = some n →
        identCmp a b = some (compare m n)) ∧
    (∀ a b : Identifier, a.kind = .alphanumeric → b.kind = .alphanumeric →
        identCmp a b = some (lexCmp a.ident b.ident)) := by
  refine ⟨?_, ?_, ?_⟩
  · intro a b ha hb
    obtain ⟨ka, sa⟩ := a
    obtain ⟨kb, sb⟩ := b
    simp only at ha hb
    subst ha
    subst hb
    exact ⟨rfl, rfl⟩
  · intro a b m n ha hb hm hn
    obtain ⟨ka, sa⟩ := a
    obtain ⟨kb, sb⟩ := b
    simp only at ha hb hm hn
    subst ha
    subst hb
    simp [identCmp, asNumeric, hm, hn]
  · intro a b ha hb
    obtain ⟨ka, sa⟩ := a
    obtain ⟨kb, sb⟩ := b
    simp only at ha hb
    subst ha
    subst hb
    rfl

/-- C8 witness: the three comparison cases at concrete identifiers. -/
theorem c8_witness :
    identCmp ⟨.numeric, "2".toList⟩ ⟨.alphanumeric, "rc".toList⟩ = some .lt ∧
    identCmp ⟨.numeric, "99".toList⟩ ⟨.numeric, "100".toList⟩ = some (compare 99 100) ∧
    identCmp ⟨.alphanumeric, "alpha".toList⟩ ⟨.alphanumeric, "beta".toList⟩
      = some (lexCmp "alpha".toList "beta".toList) :=
  ⟨(c8_theorem.1 ⟨.numeric, "2".toList⟩ ⟨.alphanumeric, "rc".toList⟩ rfl rfl).1,
   c8_theorem.2.1 ⟨.numeric, "99".toList⟩ ⟨.numeric, "100".toList⟩ 99 100 rfl rfl
     (by decide) (by decide),
   c8_theorem.2.2 ⟨.alphanumeric, "alpha".toList⟩ ⟨.alphanumeric, "beta".toList⟩ rfl rfl⟩

theorem validateInputGo_ok (s : RStr) :
    ∀ base, (∀ c ∈ s, (validChars.contains c || validDigits.contains c) = true) →
    validateInput.go s base = .ok () := by
  induction s with
  | nil => intro base _; rfl
  | cons c rest ih =>
    intro base h
    have hc := h c (List.mem_cons_self c rest)
    unfold validateInput.go
    rw [if_neg (fun hcon => hcon hc)]
    exact ih (base + 1) (fun d hd => h d (List.mem_cons_of_mem c hd))

theorem validateInputGo_error (s : RStr) :
    ∀ base c i, validateInput.go s base = .error (.invalidChar c i) →
      ∃ k, i = base + k ∧ s.get? k = some c ∧
        (validChars.contains c || validDigits.contains c) = false ∧
        ∀ j, j < k → ∃ d, s.get? j = some d ∧
          (validChars.contains d || validDigits.contains d) = true := by
  induction s with
  | nil =>
    intro base c i h
    exact absurd h (by simp [validateInput.go])
  | cons x rest ih =>
    intro base c i h
    unfold validateInput.go at h
    split at h
    next hinv =>
      simp only [Except.error.injEq, IdentifierError.invalidChar.injEq] at h
      obtain ⟨hx, hbase⟩ := h
      subst hx
      refine ⟨0, by omega, rfl, by simpa using hinv, ?_⟩
      intro j hj
      omega
    next hval =>
      obtain ⟨k, hk, hget, hbad, hprev⟩ := ih (base + 1) c i h
      refine ⟨k + 1, by omega, by simpa using hget, hbad, ?_⟩
      intro j hj
      cases j with
      | zero =>
        refine ⟨x, rfl, ?_⟩
        by_contra hcon
        exact hval (by simpa using hcon)
      | succ j' =>
        obtain ⟨d, hd1, hd2⟩ := hprev j' (by omega)
        exact ⟨d, by simpa using hd1, hd2⟩

theorem validateInputGo_err_exists (s : RStr) :
    ∀ base, (¬ ∀ c ∈ s, (validChars.contains c || validDigits.contains c) = true) →
    ∃ c i, validateInput.go s base = .error (.invalidChar c i) := by
  induction s with
  | nil =>
    intro base h
    exact absurd (fun c hc => absurd hc (List.not_mem_nil c)) h
  | cons x rest ih =>
    intro base h
    by_cases hx : (validChars.contains x || validDigits.contains x) = true
    · have hrest : ¬ ∀ c ∈ rest, (validChars.contains c || validDigits.contains c) = true := by
        intro hall
        refine h (fun c hc => ?_)
        rcases List.mem_cons.mp hc with rfl | hmem
        · exact hx
        · exact hall c hmem
      obtain ⟨c, i, hci⟩ := ih (base + 1) hrest
      refine ⟨c, i, ?_⟩
      unfold validateInput.go
      rw [if_neg (fun hcon => hcon hx)]
      exact hci
    · refine ⟨x, base, ?_⟩
      unfold validateInput.go
      rw [if_pos (by simpa using hx)]

/-- C10 counterexample: the string `18446744073709551616` (that is,
`u64::MAX + 1`) is non-empty and consists only of the accepted characters,
yet `Identifier` parsing fails with a `ParseIntError` because the all-digit
string overflows the `u64` parse — refuting the claim that parsing succeeds
exactly on non-empty strings of ASCII letters, digits, and hyphen. -/
theorem c10_counterexample :
    bigDigits ≠ [] ∧
    (∀ c ∈ bigDigits, (validChars.contains c || validDigits.contains c) = true) ∧
    identFromStr bigDigits = .error .parseIntError := by
  decide

/-- C10 (amended): `Identifier` parsing succeeds exactly when the input is
non-empty, composed only of ASCII letters, digits, and hyphen, and — when
all-digit — fits in a `u64`: an all-digit string parses as Numeric, any other
accepted string as Alphanumeric; the empty string fails with the
empty-identifier error; a string with a disallowed character fails with the
first offending character and its 0-based position; an all-digit string
overflowing `u64` fails with a `ParseIntError`. -/
theorem c10_theorem :
    (identFromStr [] = .error .emptyIdent) ∧
    (∀ (s : RStr) (c : Char) (i : Nat), s ≠ [] →
        validateInput s = .error (.invalidChar c i) →
        identFromStr s = .error (.invalidChar c i)) ∧
    (∀ (s : RStr) (c : Char) (i : Nat),
        validateInput s = .error (.invalidChar c i) →
        s.get? i = some c ∧ (validChars.contains c || validDigits.contains c) = false ∧
        ∀ j, j < i → ∃ d, s.get? j = some d ∧
          (validChars.contains d || validDigits.contains d) = true) ∧
    (∀ s : RStr, s ≠ [] →
        (¬ ∀ c ∈ s, (validChars.contains c || validDigits.contains c) = true) →
        ∃ c i, identFromStr s = .error (.invalidChar c i)) ∧
    (∀ (s : RStr) (n : Nat), s ≠ [] → validateInput s = .ok () →
        s.all Char.isDigit = true → parseU64 s = some n →
        identFromStr s = .ok ⟨.numeric, s⟩) ∧
    (∀ s : RStr, s ≠ [] → validateInput s = .ok () →
        ¬(s.all Char.isDigit = true) → identFromStr s = .ok ⟨.alphanumeric, s⟩) ∧
    (∀ s : RStr, s ≠ [] → validateInput s = .ok () →
        s.all Char.isDigit = true → parseU64 s = none →
        identFromStr s = .error .parseIntError) := by
  refine ⟨by decide, ?_, ?_, ?_, ?_, ?_, ?_⟩
  · intro s c i hne hval
    unfold identFromStr
    rw [if_neg hne]
    show (match validateInput s with | .error e => _ | .ok () => _) = _
    rw [hval]
  · intro s c i hval
    obtain ⟨k, hk, hget, hbad, hprev⟩ := validateInputGo_error s 0 c i hval
    have hik : i = k := by omega
    subst hik
    exact ⟨hget, hbad, hprev⟩
  · intro s hne hnall
    obtain ⟨c, i, hci⟩ := validateInputGo_err_exists s 0 hnall
    refine ⟨c, i, ?_⟩
    unfold identFromStr
    rw [if_neg hne]
    show (match validateInput s with | .error e => _ | .ok () => _) = _
    rw [show validateInput s = .error (.invalidChar c i) from hci]
  · intro s n hne hok hdig hparse
    unfold identFromStr
    rw [if_neg hne]
    show (match validateInput s with | .error e => _ | .ok () => _) = _
    rw [hok, if_pos hdig]
    show (match parseU64 s with | some _ => _ | none => _) = _
    rw [hparse]
  · intro s hne hok hnd
    unfold identFromStr
    rw [if_neg hne]
    show (match validateInput s with | .error e => _ | .ok () => _) = _
    rw [hok, if_neg hnd]
  · intro s hne hok hdig hparse
    unfold identFromStr
    rw [if_neg hne]
    show (match validateInput s with | .error e => _ | .ok () => _) = _
    rw [hok, if_pos hdig]
    show (match parseU64 s with | some _ => _ | none => _) = _
    rw [hparse]

end Cuv

namespace Cuv

theorem partition_filter_spec (l : List Package) (pred : Package → Bool) :
    (∀ p, p ∈ l ↔ (p ∈ l.filter pred ∨ p ∈ l.filter (fun a => !(pred a)))) ∧
    (∀ p, ¬(p ∈ l.filter pred ∧ p ∈ l.filter (fun a => !(pred a)))) := by
  constructor
  · intro p
    constructor
    · intro hp
      by_cases hpred : pred p = true
      · exact Or.inl (List.mem_filter.mpr ⟨hp, hpred⟩)
      · exact Or.inr (List.mem_filter.mpr ⟨hp, by simp [hpred]⟩)
    · intro hp
      rcases hp with hp | hp <;> exact (List.mem_filter.mp hp).1
  · intro p hcon
    have h1 := (List.mem_filter.mp hcon.1).2
    have h2 := (List.mem_filter.mp hcon.2).2
    simp [h1] at h2

theorem make_excluded (package exclude : List RStr) (name : RStr)
    (hmem : name ∈ exclude) :
    (PackagesCliModifier.make (some package) (some exclude)).isExcluded name = true := by
  have hne : exclude ≠ [] := List.ne_nil_of_mem hmem
  unfold PackagesCliModifier.make PackagesCliModifier.isExcluded
  simp only [Option.some_bind, if_neg hne]
  exact List.elem_eq_true_of_mem hmem

theorem includes_false_of_excluded (m : PackagesCliModifier) (base : List RStr)
    (name : RStr) (h : m.isExcluded name = true) :
    m.includes base name = false := by
  unfold PackagesCliModifier.includes
  rw [h]
  simp

theorem fromFlags_spec (a d : Bool) (exclude package : List RStr)
    (h : a = false ∨ d = false) :
    ∃ sel, PackagesCli.fromFlags a d exclude package = some sel ∧
      (∀ name, name ∈ exclude → sel.modifier.isExcluded name = true) := by
  cases a with
  | false =>
    cases d with
    | false =>
      cases exclude with
      | nil =>
        cases package with
        | nil =>
          exact ⟨_, rfl, fun name hmem => absurd hmem (List.not_mem_nil name)⟩
        | cons p ps' =>
          exact ⟨_, rfl, fun name hmem => absurd hmem (List.not_mem_nil name)⟩
      | cons e es =>
        exact ⟨_, rfl, fun name hmem => make_excluded _ _ name hmem⟩
    | true =>
      exact ⟨_, rfl, fun name hmem => make_excluded _ _ name hmem⟩
  | true =>
    cases d with
    | false =>
      cases exclude with
      | nil =>
        exact ⟨_, rfl, fun name hmem => absurd hmem (List.not_mem_nil name)⟩
      | cons e es =>
        exact ⟨_, rfl, fun name hmem => make_excluded _ _ name hmem⟩
    | true => simp at h

/-- C9 counterexample: with both `--workspace` and `--default-members` set —
a combination of the two selection flags — `partition_packages` does not
return a partition at all: `PackagesCli::from_flags` hits its
`unreachable!()` arm (modelled as `none`), refuting the claim for that
flag combination. -/
theorem c9_counterexample :
    wsFlagsBoth.workspace = true ∧ wsFlagsBoth.default_members = true ∧
    wsFlagsBoth.partitionPackages packagesApp = none := by
  decide

/-- C9 (amended): for every workspace package set and every combination of
the workspace/default-members flags **except both at once** (a combination
the CLI rejects as conflicting and the code marks unreachable), together with
any include and exclude name lists, `partition_packages` returns an
`(included, excluded)` pair that is a true partition of all workspace
members — their union is the full member set and their intersection is
empty — and any package whose name appears in the exclude list lands in
`excluded`, so exclusion takes precedence over inclusion. -/
theorem c9_theorem (ws : Workspace) (ps : Packages)
    (h : ws.workspace = false ∨ ws.default_members = false) :
    ∃ inc exc, ws.partitionPackages ps = some (inc, exc) ∧
      (∀ p, p ∈ ps.packageSet ↔ (p ∈ inc ∨ p ∈ exc)) ∧
      (∀ p, ¬(p ∈ inc ∧ p ∈ exc)) ∧
      (∀ p, p ∈ ps.packageSet → p.name ∈ ws.exclude → p ∈ exc) := by
  obtain ⟨sel, hsel, hexc⟩ := fromFlags_spec ws.workspace ws.default_members
    ws.exclude ws.package h
  unfold Workspace.partitionPackages
  rw [hsel]
  dsimp only
  rw [List.partition_eq_filter_filter]
  refine ⟨_, _, rfl, (partition_filter_spec _ _).1, (partition_filter_spec _ _).2, ?_⟩
  intro p hp hmem
  refine List.mem_filter.mpr ⟨hp, ?_⟩
  have hexcp := hexc p.name hmem
  cases sel with
  | rootPackage m =>
    have hx := includes_false_of_excluded m
      (List.filter (fun q => decide (some q = ps.root_package)) ps.workspaceMembers)
      p.name hexcp
    simp [Function.comp, PackagesCli.modifier, hx]
  | all m =>
    have hx := includes_false_of_excluded m ps.workspaceMembers p.name hexcp
    simp [Function.comp, PackagesCli.modifier, hx]
  | defaultMembers m =>
    have hx := includes_false_of_excluded m ps.workspaceDefaultMembers p.name hexcp
    simp [Function.comp, PackagesCli.modifier, hx]

/-- C9 witness: the amended theorem applied to the one-package scenario
workspace in root-package selection mode. -/
theorem c9_witness :
    ∃ inc exc, wsFlagsNone.partitionPackages packagesApp = some (inc, exc) ∧
      (∀ p, p ∈ packagesApp.packageSet ↔ (p ∈ inc ∨ p ∈ exc)) ∧
      (∀ p, ¬(p ∈ inc ∧ p ∈ exc)) ∧
      (∀ p, p ∈ packagesApp.packageSet → p.name ∈ wsFlagsNone.exclude → p ∈ exc) :=
  c9_theorem wsFlagsNone packagesApp (Or.inl rfl)

end Cuv

namespace Cuv

theorem mem_dedupInsert {α : Type} [DecidableEq α] (l : List α) (x u : α) :
    u ∈ dedupInsert l x ↔ u ∈ l ∨ u = x := by
  unfold dedupInsert
  split
  next hmem =>
    constructor
    · exact Or.inl
    · rintro (h | rfl)
      · exact h
      · exact hmem
  next => simp [List.mem_append]

theorem setChildGo_keys (t : Task) (c : Option ChildProc) :
    ∀ l : List (Task × Option ChildProc),
      (Tasks.setChild.go t c l).map Prod.fst = l.map Prod.fst := by
  intro l
  induction l with
  | nil => rfl
  | cons e rest ih =>
    unfold Tasks.setChild.go
    split
    next heq => simp [heq]
    next => simp [ih]

theorem setChild_taskKeys (s : Tasks) (t : Task) (c : Option ChildProc) :
    (s.setChild t c).taskKeys = s.taskKeys := by
  unfold Tasks.setChild Tasks.taskKeys
  exact setChildGo_keys t c s.tasks

theorem setChild_completed (s : Tasks) (t : Task) (c : Option ChildProc) :
    (s.setChild t c).completed = s.completed := rfl

theorem setChild_packages (s : Tasks) (t : Task) (c : Option ChildProc) :
    (s.setChild t c).packages = s.packages := rfl

theorem completeTask_taskKeys (s : Tasks) (t : Task) :
    (s.completeTask t).taskKeys = s.taskKeys := rfl

theorem completeTask_packages (s : Tasks) (t : Task) :
    (s.completeTask t).packages = s.packages := rfl

theorem lookupChild_mem (s : Tasks) (t : Task) (x : Option ChildProc)
    (h : s.lookupChild t = some x) : t ∈ s.taskKeys := by
  unfold Tasks.lookupChild at h
  cases hf : s.tasks.find? (fun e => e.1 = t) with
  | none => rw [hf] at h; simp at h
  | some e =>
    have hmem := List.mem_of_find?_eq_some hf
    have hkey := List.find?_some hf
    simp only [decide_eq_true_eq] at hkey
    subst hkey
    exact List.mem_map_of_mem Prod.fst hmem

theorem mem_incomplete_iff (s : Tasks) (t : Task) :
    t ∈ s.incompleteTasks ↔ t ∈ s.taskKeys ∧ t ∉ s.completed := by
  unfold Tasks.incompleteTasks
  rw [List.mem_filter]
  simp [List.contains, List.elem_iff]

theorem incomplete_nodup (s : Tasks) (h : s.taskKeys.Nodup) :
    s.incompleteTasks.Nodup := h.filter _

theorem fromTasks_shape (s : Tasks) (t : Task) (o : Option String) (msg : String)
    (hkeys : t ∈ s.taskKeys) (hnc : t ∉ s.completed) :
    (TaskError.fromTasks s t o msg).errored_task
        ∈ (TaskError.fromTasks s t o msg).incomplete_tasks ∧
    (∀ u, u ∈ (TaskError.fromTasks s t o msg).completed_tasks →
        u ∉ (TaskError.fromTasks s t o msg).incomplete_tasks) ∧
    (∀ u, u ∈ s.taskKeys → u ∈ (TaskError.fromTasks s t o msg).completed_tasks ∨
        u ∈ (TaskError.fromTasks s t o msg).incomplete_tasks) ∧
    (∀ u, u ∈ (TaskError.fromTasks s t o msg).incomplete_tasks → u ∈ s.taskKeys) := by
  refine ⟨?_, ?_, ?_, ?_⟩
  · exact (mem_incomplete_iff s t).mpr ⟨hkeys, hnc⟩
  · intro u hu hcon
    exact ((mem_incomplete_iff s u).mp hcon).2 hu
  · intro u hu
    by_cases hc : u ∈ s.completed
    · exact Or.inl hc
    · exact Or.inr ((mem_incomplete_iff s u).mpr ⟨hu, hc⟩)
  · intro u hu
    exact ((mem_incomplete_iff s u).mp hu).1

theorem joinPass_ok_keys (l : List Task) : ∀ (s s' : Tasks),
    joinPass s l = .ok s' → s'.taskKeys = s.taskKeys := by
  induction l with
  | nil =>
    intro s s' h
    simp only [joinPass, Except.ok.injEq] at h
    rw [h]
  | cons t rest ih =>
    intro s s' h
    unfold joinPass at h
    split at h
    next => exact (ih _ _ h).trans (completeTask_taskKeys s t)
    next => exact (ih _ _ h).trans (completeTask_taskKeys s t)
    next c heq =>
      split at h
      next => exact (ih _ _ h).trans (setChild_taskKeys s t _)
      next =>
        split at h
        next => exact absurd h (by simp)
        next code hr =>
          dsimp only at h
          split at h
          next => exact absurd h (by simp)
          next =>
            exact (ih _ _ h).trans
              ((completeTask_taskKeys _ t).trans (setChild_taskKeys s t none))

theorem joinPass_error_shape (l : List Task) : ∀ (s : Tasks) (e : TaskError),
    l.Nodup → (∀ t ∈ l, t ∉ s.completed) →
    joinPass s l = .error e →
    (e.errored_task ∈ e.incomplete_tasks ∧
     (∀ u, u ∈ e.completed_tasks → u ∉ e.incomplete_tasks) ∧
     (∀ u, u ∈ s.taskKeys → u ∈ e.completed_tasks ∨ u ∈ e.incomplete_tasks) ∧
     (∀ u, u ∈ e.incomplete_tasks → u ∈ s.taskKeys)) := by
  induction l with
  | nil =>
    intro s e _ _ h
    exact absurd h (by simp [joinPass])
  | cons t rest ih =>
    intro s e hnodup hnc h
    have hnodup' := hnodup
    rw [List.nodup_cons] at hnodup'
    have hncnext : ∀ u ∈ rest, u ∉ (s.completeTask t).completed := by
      intro u hu hcon
      rcases (mem_dedupInsert s.completed t u).mp hcon with hcon' | rfl
      · exact hnc u (List.mem_cons_of_mem t hu) hcon'
      · exact hnodup'.1 hu
    unfold joinPass at h
    split at h
    next =>
      have := ih (s.completeTask t) e hnodup'.2 hncnext h
      rwa [completeTask_taskKeys] at this
    next =>
      have := ih (s.completeTask t) e hnodup'.2 hncnext h
      rwa [completeTask_taskKeys] at this
    next c heq =>
      have hkeys : t ∈ s.taskKeys := lookupChild_mem s t _ heq
      have hnct : t ∉ s.completed := hnc t (List.mem_cons_self t rest)
      split at h
      next hp =>
        have hncnext' : ∀ u ∈ rest,
            u ∉ (s.setChild t (some { c with pending := c.pending - 1 })).completed := by
          intro u hu
          rw [setChild_completed]
          exact hnc u (List.mem_cons_of_mem t hu)
        have := ih _ e hnodup'.2 hncnext' h
        rwa [setChild_taskKeys] at this
      next hp =>
        split at h
        next u hr =>
          simp only [Except.error.injEq] at h
          subst h
          exact fromTasks_shape s t none "" hkeys hnct
        next code hr =>
          dsimp only at h
          split at h
          next hc =>
            simp only [Except.error.injEq] at h
            subst h
            have hkeys' : t ∈ (s.setChild t none).taskKeys := by
              rwa [setChild_taskKeys]
            have hnct' : t ∉ (s.setChild t none).completed := by
              rwa [setChild_completed]
            have := fromTasks_shape (s.setChild t none) t (some c.stderr)
              "exited with non-zero code" hkeys' hnct'
            rwa [setChild_taskKeys] at this
          next hc =>
            have hncnext2 : ∀ u ∈ rest,
                u ∉ ((s.setChild t none).completeTask t).completed := by
              intro u hu hcon
              rcases (mem_dedupInsert (s.setChild t none).completed t u).mp hcon with
                hcon' | rfl
              · rw [setChild_completed] at hcon'
                exact hnc u (List.mem_cons_of_mem t hu) hcon'
              · exact hnodup'.1 hu
            have := ih _ e hnodup'.2 hncnext2 h
            rwa [completeTask_taskKeys, setChild_taskKeys] at this

theorem joinAllAux_error_shape (n : Nat) : ∀ (s : Tasks) (e : TaskError),
    s.taskKeys.Nodup → joinAllAux n s = .err e →
    (e.errored_task ∈ e.incomplete_tasks ∧
     (∀ u, u ∈ e.completed_tasks → u ∉ e.incomplete_tasks) ∧
     (∀ u, u ∈ s.taskKeys → u ∈ e.completed_tasks ∨ u ∈ e.incomplete_tasks) ∧
     (∀ u, u ∈ e.incomplete_tasks → u ∈ s.taskKeys)) := by
  induction n with
  | zero =>
    intro s e _ h
    exact absurd h (by simp [joinAllAux])
  | succ m ih =>
    intro s e hnd h
    unfold joinAllAux at h
    by_cases hinc : s.incompleteTasks = []
    · rw [if_pos hinc] at h
      split at h <;> simp at h
    · rw [if_neg hinc] at h
      cases hp : joinPass s s.incompleteTasks with
      | error e' =>
        rw [hp] at h
        simp only [JoinOutcome.err.injEq] at h
        subst h
        exact joinPass_error_shape s.incompleteTasks s e' (incomplete_nodup s hnd)
          (fun t ht => ((mem_incomplete_iff s t).mp ht).2) hp
      | ok s' =>
        rw [hp] at h
        have hkeys := joinPass_ok_keys s.incompleteTasks s s' hp
        have := ih s' e (hkeys ▸ hnd) h
        rwa [hkeys] at this

end Cuv

namespace Cuv

theorem runAllGo_ran_frame (ext : Ext) (cli : Cli) (l : List Task) :
    ∀ (s : Tasks) (pkgs : Packages) (ran : List Task) (ws : List WriteEvent),
    (∀ u ∈ ran, u.isRunAfterCompleted = false) →
    ∀ t ∈ (runAllGo ext cli l s pkgs ran ws).ran, t.isRunAfterCompleted = false := by
  induction l with
  | nil =>
    intro s pkgs ran ws hr t ht
    exact hr t ht
  | cons x rest ih =>
    intro s pkgs ran ws hr t ht
    unfold runAllGo at ht
    split at ht
    next => exact ih _ _ _ _ hr t ht
    next hx =>
      have hx' : x.isRunAfterCompleted = false := by
        cases hxx : x.isRunAfterCompleted
        · rfl
        · exact absurd hxx hx
      have hr' : ∀ u ∈ ran ++ [x], u.isRunAfterCompleted = false := by
        intro u hu
        rcases List.mem_append.mp hu with h1 | h2
        · exact hr u h1
        · rw [List.mem_singleton] at h2
          subst h2
          exact hx'
      split at ht
      next => exact ih _ _ _ _ hr' t ht
      next => exact ih _ _ _ _ hr' t ht
      next =>
        dsimp only at ht
        exact hr' t ht

theorem runAll_ran_frame (ext : Ext) (cli : Cli) (s : Tasks) (t : Task)
    (ht : t ∈ (Tasks.runAll ext cli s).ran) : t.isRunAfterCompleted = false := by
  unfold Tasks.runAll at ht
  split at ht
  next =>
    dsimp only at ht
    exact absurd ht (by simp)
  next =>
    split at ht
    next =>
      dsimp only at ht
      exact absurd ht (by simp)
    next =>
      exact runAllGo_ran_frame ext cli s.taskKeys s s.packages [] []
        (fun u hu => absurd hu (by simp)) t ht

theorem runAllGo_pkgs_frame (ext : Ext) (cli : Cli) (l : List Task) :
    ∀ (s : Tasks) (pkgs : Packages) (ran : List Task) (ws : List WriteEvent)
      (ts' : Tasks),
    (runAllGo ext cli l s pkgs ran ws).result = .ok ts' → ts'.packages = s.packages := by
  induction l with
  | nil =>
    intro s pkgs ran ws ts' h
    unfold runAllGo at h
    dsimp only at h
    simp only [Except.ok.injEq] at h
    rw [← h]
  | cons x rest ih =>
    intro s pkgs ran ws ts' h
    unfold runAllGo at h
    split at h
    next => exact ih _ _ _ _ _ h
    next =>
      split at h
      next => exact (ih _ _ _ _ _ h).trans (setChild_packages s x _)
      next => exact (ih _ _ _ _ _ h).trans (completeTask_packages s x)
      next =>
        dsimp only at h
        exact absurd h (by simp)

theorem runAll_packages (ext : Ext) (cli : Cli) (s ts' : Tasks)
    (h : (Tasks.runAll ext cli s).result = .ok ts') : ts'.packages = s.packages := by
  unfold Tasks.runAll at h
  split at h
  next =>
    dsimp only at h
    exact absurd h (by simp)
  next =>
    split at h
    next =>
      dsimp only at h
      exact absurd h (by simp)
    next => exact runAllGo_pkgs_frame ext cli s.taskKeys s s.packages [] [] ts' h

theorem cleanupGo_ok_ran (ext : Ext) (cli : Cli) (l : List Task) :
    ∀ (pkgs : Packages) (ran ran' : List Task) (ws ws' : List WriteEvent),
    cleanupGo ext cli l pkgs ran ws = (.ok (), ran', ws') → ran' = ran ++ l := by
  induction l with
  | nil =>
    intro pkgs ran ran' ws ws' h
    simp only [cleanupGo, Prod.mk.injEq] at h
    rw [← h.2.1, List.append_nil]
  | cons t rest ih =>
    intro pkgs ran ran' ws ws' h
    unfold cleanupGo at h
    split at h
    next =>
      have hr := ih _ _ _ _ _ h
      rw [hr]
      simp
    next => exact absurd h (by simp)

theorem runCleanup_ran (ext : Ext) (cli : Cli) (s ts' : Tasks)
    (h : (Tasks.runCleanupTasks ext cli s).result = .ok ts') :
    (Tasks.runCleanupTasks ext cli s).ran = s.runAfterCompletedTasks := by
  unfold Tasks.runCleanupTasks at h ⊢
  split at h
  next e heq => exact absurd h (by simp)
  next heq =>
    split at h
    next e heq2 => exact absurd h (by simp)
    next heq2 =>
      rcases hcg : cleanupGo ext cli s.runAfterCompletedTasks s.packages [] []
        with ⟨res, ran2, ws2⟩
      dsimp only at h ⊢
      cases res with
      | error e =>
        rw [hcg] at h
        exact absurd h (by simp [Except.map])
      | ok u =>
        cases u
        have hr := cleanupGo_ok_ran ext cli s.runAfterCompletedTasks
          s.packages [] ran2 [] ws2 hcg
        rw [List.nil_append] at hr
        exact hr

theorem mapTriple_ok_writes {α : Type} (r : Except String α)
    (g : α → Option ChildProc) (pkgs : Packages) (c : Option ChildProc)
    (pkgs' : Packages) (ws : List WriteEvent)
    (h : r.map (fun x => (g x, pkgs, ([] : List WriteEvent))) = .ok (c, pkgs', ws)) :
    ws = [] := by
  cases r with
  | error e => exact absurd h (by simp [Except.map])
  | ok x =>
    simp only [Except.map, Except.ok.injEq, Prod.mk.injEq] at h
    exact h.2.2.symm

theorem run_writes_frame (cli : Cli) (ext : Ext) (pkgs : Packages) (t : Task)
    (c : Option ChildProc) (pkgs' : Packages) (ws : List WriteEvent)
    (h : Task.run cli ext pkgs t = .ok (c, pkgs', ws)) (hne : ws ≠ []) :
    ∃ name, t = Task.writeCargoToml name := by
  unfold Task.run at h
  split at h
  next => exact absurd h (by simp)
  next rv hrv =>
    cases t with
    | writeCargoToml name => exact ⟨name, rfl⟩
    | gitPush remote tag =>
      dsimp only at h
      exact absurd (mapTriple_ok_writes _ (fun y => some y) _ _ _ _ h) hne
    | cargoPublish =>
      dsimp only at h
      exact absurd (mapTriple_ok_writes _ (fun y => some y) _ _ _ _ h) hne
    | displayVersion name =>
      dsimp only at h
      split at h
      next => exact absurd h (by simp)
      next =>
        simp only [Except.ok.injEq, Prod.mk.injEq] at h
        exact absurd h.2.2.symm hne
    | workspaceTree =>
      dsimp only at h
      simp only [Except.ok.injEq, Prod.mk.injEq] at h
      exact absurd h.2.2.symm hne
    | set name v =>
      dsimp only at h
      split at h
      next =>
        simp only [Except.ok.injEq, Prod.mk.injEq] at h
        exact absurd h.2.2.symm hne
      next => exact absurd h (by simp)
    | bump name a v =>
      dsimp only at h
      split at h
      next =>
        simp only [Except.ok.injEq, Prod.mk.injEq] at h
        exact absurd h.2.2.symm hne
      next => exact absurd h (by simp)
    | setWorkspace v =>
      dsimp only at h
      split at h
      next =>
        simp only [Except.ok.injEq, Prod.mk.injEq] at h
        exact absurd h.2.2.symm hne
      next => exact absurd h (by simp)
    | bumpWorkspace a v =>
      dsimp only at h
      split at h
      next =>
        simp only [Except.ok.injEq, Prod.mk.injEq] at h
        exact absurd h.2.2.symm hne
      next => exact absurd h (by simp)
    | deleteGitTag v =>
      dsimp only at h
      exact absurd (mapTriple_ok_writes _ (fun _ => none) _ _ _ _ h) hne
    | gitAdd files =>
      dsimp only at h
      exact absurd (mapTriple_ok_writes _ (fun _ => none) _ _ _ _ h) hne
    | gitCommit =>
      dsimp only at h
      exact absurd (mapTriple_ok_writes _ (fun _ => none) _ _ _ _ h) hne
    | gitTag v =>
      dsimp only at h
      exact absurd (mapTriple_ok_writes _ (fun _ => none) _ _ _ _ h) hne
    | cargoGenerateLock =>
      dsimp only at h
      exact absurd (mapTriple_ok_writes _ (fun _ => none) _ _ _ _ h) hne


/-- C2: the claim says that when every spawned process exits 0, `join_all`
returns success with every non-cleanup task completed. The code disagrees:
a task collection holding a cleanup task (`DeleteGitTag`, exactly what a dry
run queues) has no spawned process at all, yet `join_all` completes the
cleanup task through the missing-handle path and then panics on the final
`assert!(run_after_completed_tasks().len() == incomplete_tasks().len())`
(`src/tasks/tasks.rs:269-272`), since one cleanup task remains against an
empty incomplete set. The spec's own three-task scenario (no cleanup task)
does succeed with all three tasks completed and nothing incomplete. -/
theorem c2_theorem :
    tasksCleanupOnly.tasks.all (fun p => p.2.isNone) = true ∧
    tasksCleanupOnly.runAfterCompletedTasks = [Task.deleteGitTag ver100] ∧
    joinAllAux 2 tasksCleanupOnly = .panicked ∧
    joinAllAux 4 tasksThree = .ok tasksThreeDone ∧
    tasksThreeDone.incompleteTasks = [] ∧
    tasksThreeDone.completed = [taskLocal, taskProcB, taskProcA] := by decide

/-- C4 counterexample: `run_all` mutates only a clone of the owned
`Packages` (`let mut packages = self.packages.clone()`), so after a
successful `Set app 2.0.0` the returned Tasks still reads `1.2.3` for `app`
— the claim's "mutated in place, readable from the returned Tasks" is false
as stated. No write event is emitted without an explicit `WriteCargoToml`. -/
theorem c4_counterexample :
    ((Tasks.runAll extApp cliSet tasksSetOnly).result.map
        (fun ts => (ts.packages.getPackage appName).map Package.version))
      = .ok (some ver123) ∧
    ver123 ≠ ver200 ∧
    (Tasks.runAll extApp cliSet tasksSetOnly).writes = [] := by decide

/-- C4 (amended): the `Packages` owned by the Tasks that `run_all` returns
is the *original* snapshot, byte for byte — version-change tasks mutate only
the dropped clone; persistent writes can only come from a `WriteCargoToml`
task; and when the clone's mutation is followed by an explicit
`WriteCargoToml`, the write event carries the new version while the returned
model is still the stale snapshot. -/
theorem c4_theorem :
    (∀ (ext : Ext) (cli : Cli) (s ts' : Tasks),
      (Tasks.runAll ext cli s).result = .ok ts' → ts'.packages = s.packages) ∧
    (∀ (cli : Cli) (ext : Ext) (pkgs : Packages) (t : Task) (c : Option ChildProc)
        (pkgs' : Packages) (ws : List WriteEvent),
      Task.run cli ext pkgs t = .ok (c, pkgs', ws) → ws ≠ [] →
      ∃ name, t = Task.writeCargoToml name) ∧
    (Tasks.runAll extApp cliSet tasksSetWrite).writes = [⟨appName, ver200⟩] ∧
    ((Tasks.runAll extApp cliSet tasksSetWrite).result.map (fun ts => ts.packages))
      = .ok packagesApp :=
  ⟨fun ext cli s ts' h => runAll_packages ext cli s ts' h,
   fun cli ext pkgs t c pkgs' ws h hne => run_writes_frame cli ext pkgs t c pkgs' ws h hne,
   by decide, by decide⟩

/-- C6: a non-zero exit or a polling I/O error aborts `join_all` with a
`TaskError` whose errored task is among the incomplete tasks, whose completed
and incomplete sets are disjoint and jointly cover every queued task; in the
two-process scenario (one exits 0, one exits 101 with stderr `boom`, one
still running) the failure names the non-zero task, carries its captured
output, lists the finished task as completed and the unfinished ones as
incomplete. -/
theorem c6_theorem :
    (∀ (n : Nat) (s : Tasks) (e : TaskError), s.taskKeys.Nodup →
      joinAllAux n s = .err e →
      (e.errored_task ∈ e.incomplete_tasks ∧
       (∀ u, u ∈ e.completed_tasks → u ∉ e.incomplete_tasks) ∧
       (∀ u, u ∈ s.taskKeys → u ∈ e.completed_tasks ∨ u ∈ e.incomplete_tasks) ∧
       (∀ u, u ∈ e.incomplete_tasks → u ∈ s.taskKeys))) ∧
    joinAllAux 2 tasksFailScenario = .err failErr ∧
    failErr.errored_task = taskProcB ∧
    failErr.output = "boom" ∧
    failErr.completed_tasks = [taskProcA] ∧
    failErr.incomplete_tasks = [taskProcB, Task.gitTag ver100] :=
  ⟨fun n s e hnd h => joinAllAux_error_shape n s e hnd h,
   by decide, rfl, rfl, rfl, rfl⟩

/-- C7: `run_all` never runs a cleanup-class (`run_after_completed`) task —
whatever the task list; a successful `run_cleanup_tasks` runs exactly the
cleanup tasks in insertion order; and the dry-run + git-tag scenario
generates a task list whose second-to-last entry `DeleteGitTag(1.2.4)` (the
resolved root version after the patch bump) is classified cleanup, is skipped
by `run_all` and is run only by `run_cleanup_tasks`. -/
theorem c7_theorem :
    (∀ (ext : Ext) (cli : Cli) (s : Tasks) (t : Task),
      t ∈ (Tasks.runAll ext cli s).ran → t.isRunAfterCompleted = false) ∧
    (∀ (ext : Ext) (cli : Cli) (s ts' : Tasks),
      (Tasks.runCleanupTasks ext cli s).result = .ok ts' →
      (Tasks.runCleanupTasks ext cli s).ran = s.runAfterCompletedTasks) ∧
    (generateTasks extApp cliDryTag packagesApp).map Tasks.taskKeys = .ok genKeys ∧
    Task.deleteGitTag ver124 ∈ genKeys ∧
    (Task.deleteGitTag ver124).isRunAfterCompleted = true ∧
    (generateTasks extApp cliDryTag packagesApp).map
        (fun ts => ((Tasks.runAll extApp cliDryTag ts).ran,
                    (Tasks.runCleanupTasks extApp cliDryTag ts).ran))
      = .ok (genRanList, [Task.deleteGitTag ver124]) ∧
    (generateTasks extApp cliDryTag packagesApp).bind Tasks.rootVersion = .ok ver124 :=
  ⟨fun ext cli s t ht => runAll_ran_frame ext cli s t ht,
   fun ext cli s ts' h => runCleanup_ran ext cli s ts' h,
   by decide, by decide, by decide, by decide, by decide⟩

end Cuv
